import Mathlib

/-!
# gitignorer: detection of project types and generation of the ignore file

A shallow embedding of `src/gitignorer.go`.

* Go strings are modelled by `String`; every template block is ASCII, so bytes
  and characters coincide on them.
* A Go `map[string]bool` is modelled by an association list (`TagMap`); reading
  a key that is absent yields `false`, as in Go.
* `filepath.Walk` is modelled by the sequence of callback invocations it makes
  (`WalkEntry`): the base name of the visited entry and whether the walk
  reported an error for it. The callback of `detectProjectTypes` always returns
  `nil`, so the walk never skips or stops on its account.
* `strings.ToLower` is library code; `detectProjectTypes` takes it as the
  parameter `ToLower`. `asciiToLower` is the instance used on concrete inputs.
* The file system is modelled by the content of the file at each path (`FS`).
  Whether the operating system makes a call fail is an input of `main`
  (`renameFault`, `writeFault`). A failed `os.Rename` leaves the file system as
  it was. `os.WriteFile` opens the file with `O_WRONLY|O_CREATE|O_TRUNC` and
  then writes, so a failed call leaves the file untouched when the open failed
  and created or truncated, holding what was written before the failure,
  otherwise (`WriteFault`). Standard output is the list of the lines printed.
-/

namespace Gitignorer

/-! ## Strings -/

/-- Source: `strings.Join(elems, sep)`: the elements in order, `sep` between
each two neighbours; the empty string for no element. -/
def Join : List String → String → String
  | [], _ => ""
  | [a], _ => a
  | a :: b :: rest, sep => a ++ sep ++ Join (b :: rest) sep

/-- Source: `strings.HasSuffix(s, suffix)`:
`len(s) >= len(suffix) && s[len(s)-len(suffix):] == suffix`. -/
def HasSuffix (s suffix : String) : Bool :=
  decide (s.data.length ≥ suffix.data.length) &&
    decide (s.data.drop (s.data.length - suffix.data.length) = suffix.data)

/-- Lower-casing of the ASCII letters `A`..`Z`, every other character kept:
what `strings.ToLower` does on an ASCII string. -/
def asciiToLower (s : String) : String :=
  ⟨s.data.map (fun c => if 65 ≤ c.toNat ∧ c.toNat ≤ 90 then Char.ofNat (c.toNat + 32) else c)⟩

/-- Does `p` start `s`? -/
def startsWith : List Char → List Char → Bool
  | [], _ => true
  | _ :: _, [] => false
  | a :: p, b :: s => decide (a = b) && startsWith p s

/-- Number of positions of `s` at which an occurrence of `p` starts. -/
def occurrences (p : List Char) : List Char → Nat
  | [] => if p = [] then 1 else 0
  | c :: s => (if startsWith p (c :: s) then 1 else 0) + occurrences p s

/-- Comparison of `p` with the start of `s` that stops at the end of `s`:
`some true` when all of `p` was matched, `some false` at the first mismatch,
`none` when `s` ran out first. -/
def matchAt : List Char → List Char → Option Bool
  | [], _ => some true
  | _ :: _, [] => none
  | a :: p, b :: s => if a = b then matchAt p s else some false

/-- Number of positions of `x` at which `p` starts in `x ++ q`, when every one
of these positions is settled inside `x ++ q`; `none` otherwise. -/
def startsIn (p q : List Char) : List Char → Option Nat
  | [] => some 0
  | c :: x =>
    match matchAt p (c :: (x ++ q)), startsIn p q x with
    | some b, some n => some ((if b then 1 else 0) + n)
    | _, _ => none

/-- The lines of a text from the characters still to read and the characters
of the current line, last first. -/
def linesAux : List Char → List Char → List String
  | [], cur => [⟨cur.reverse⟩]
  | c :: s, cur =>
    if c = Char.ofNat 10 then ⟨cur.reverse⟩ :: linesAux s [] else linesAux s (c :: cur)

/-- The lines of a text: the pieces between its newline characters, as
`strings.Split(s, "\n")` gives them. -/
def lines (s : String) : List String := linesAux s.data []

/-- The text ends with a newline character that follows another character. -/
def endsLine (l : List Char) : Bool :=
  match l.reverse with
  | n :: x :: _ => n == Char.ofNat 10 && x != Char.ofNat 10
  | _ => false

/-- The substring `p` occurs in `s` (Go: `strings.Contains(s, p)`). -/
def Contains (s p : String) : Prop := p.data <:+: s.data

/-- The substring `p` occurs in `s` at exactly one position. -/
def OccursOnce (s p : String) : Prop := occurrences p.data s.data = 1

/-! ## Tag maps -/

/-- A Go `map[string]bool`. -/
abbrev TagMap := List (String × Bool)

/-- Source: the read `types[k]`: the stored value, `false` for an absent key. -/
def TagMap.get (m : TagMap) (k : String) : Bool :=
  match m.lookup k with
  | some v => v
  | none => false

/-- Source: the assignment `types[k] = v`. -/
def TagMap.set (m : TagMap) (k : String) (v : Bool) : TagMap :=
  (k, v) :: m.filter (fun p => p.1 != k)

/-- Every key of the map is stored with the value `true`. -/
def TagMap.AllTrue (m : TagMap) : Prop := ∀ p ∈ m, p.2 = true

/-! ## Template blocks -/

/-- Source: func commonGitignore, the raw string literal it returns. -/
def commonGitignore : String :=
  "# =========================================\n" ++
  "# COMMON\n" ++
  "# =========================================\n" ++
  ".DS_Store\n" ++
  "Thumbs.db\n" ++
  "*.log\n" ++
  "*.tmp\n" ++
  "*.swp\n" ++
  "*.bak\n" ++
  "*.temp\n" ++
  "\n" ++
  "# ENV files\n" ++
  ".env\n" ++
  ".env.*\n" ++
  "*.secret\n" ++
  "\n" ++
  "# Git\n" ++
  ".gitmodules\n" ++
  ".svn/\n" ++
  "\n" ++
  "# System\n" ++
  ".idea/\n" ++
  ".vscode/\n" ++
  "*.iml\n"

/-- Source: func gitignoreGo, the raw string literal it returns. -/
def gitignoreGo : String :=
  "# =========================================\n" ++
  "# GO\n" ++
  "# =========================================\n" ++
  "bin/\n" ++
  "vendor/\n" ++
  "*.exe\n" ++
  "*.exe~\n" ++
  "*.dll\n" ++
  "*.so\n" ++
  "*.dylib\n" ++
  "*.test\n" ++
  "go.sum\n"

/-- Source: func gitignorePython, the raw string literal it returns. -/
def gitignorePython : String :=
  "# =========================================\n" ++
  "# PYTHON\n" ++
  "# =========================================\n" ++
  "__pycache__/\n" ++
  "*.py[cod]\n" ++
  "*.pyo\n" ++
  "*.pyd\n" ++
  "*.pdb\n" ++
  "*.egg\n" ++
  "*.egg-info/\n" ++
  "dist/\n" ++
  "build/\n" ++
  "pip-wheel-metadata/\n" ++
  "*.sqlite3\n" ++
  "*.db\n" ++
  ".env/\n" ++
  ".venv/\n"

/-- Source: func gitignoreNode, the raw string literal it returns. -/
def gitignoreNode : String :=
  "# =========================================\n" ++
  "# NODE / JAVASCRIPT / TYPESCRIPT\n" ++
  "# =========================================\n" ++
  "node_modules/\n" ++
  "npm-debug.log*\n" ++
  "yarn-debug.log*\n" ++
  "yarn-error.log*\n" ++
  "dist/\n" ++
  "build/\n" ++
  ".cache/\n" ++
  ".next/\n" ++
  "out/\n" ++
  "*.tsbuildinfo\n"

/-- Source: func gitignoreRust, the raw string literal it returns. -/
def gitignoreRust : String :=
  "# =========================================\n" ++
  "# RUST\n" ++
  "# =========================================\n" ++
  "target/\n" ++
  "Cargo.lock\n" ++
  "*.rs.bk\n"

/-- Source: func gitignoreJava, the raw string literal it returns. -/
def gitignoreJava : String :=
  "# =========================================\n" ++
  "# JAVA / KOTLIN / ANDROID\n" ++
  "# =========================================\n" ++
  "target/\n" ++
  "bin/\n" ++
  "build/\n" ++
  ".gradle/\n" ++
  ".gradle-cache/\n" ++
  "*.class\n" ++
  "*.jar\n" ++
  "*.war\n" ++
  "*.ear\n" ++
  "*.iml\n" ++
  "local.properties\n"

/-- Source: func gitignorePHP, the raw string literal it returns. -/
def gitignorePHP : String :=
  "# =========================================\n" ++
  "# PHP / LARAVEL\n" ++
  "# =========================================\n" ++
  "vendor/\n" ++
  "storage/\n" ++
  "bootstrap/cache/\n" ++
  "*.cache\n"

/-- Source: func gitignoreFlutter, the raw string literal it returns. -/
def gitignoreFlutter : String :=
  "# =========================================\n" ++
  "# FLUTTER / DART\n" ++
  "# =========================================\n" ++
  ".build/\n" ++
  ".dart_tool/\n" ++
  ".packages\n" ++
  ".pub-cache/\n" ++
  "pubspec.lock\n" ++
  "ios/Pods/\n" ++
  "android/.gradle/\n" ++
  "android/app/build/\n"

/-- Source: func gitignoreSwiftXcode, the raw string literal it returns. -/
def gitignoreSwiftXcode : String :=
  "# =========================================\n" ++
  "# SWIFT / XCODE / IOS\n" ++
  "# =========================================\n" ++
  "build/\n" ++
  "DerivedData/\n" ++
  "*.xcworkspace/xcuserdata/\n" ++
  "*.xcodeproj/xcuserdata/\n" ++
  "*.xcuserstate\n" ++
  "*.swiftpm\n" ++
  ".swiftpm/\n" ++
  "Carthage/\n" ++
  "Pods/\n"

/-- Source: func gitignoreVSCode, the raw string literal it returns. -/
def gitignoreVSCode : String :=
  "# =========================================\n" ++
  "# VS CODE\n" ++
  "# =========================================\n" ++
  ".vscode/*\n" ++
  "!.vscode/settings.json\n" ++
  "!.vscode/tasks.json\n" ++
  "!.vscode/launch.json\n" ++
  "!.vscode/extensions.json\n"

/-- Source: func gitignoreJetBrains, the raw string literal it returns. -/
def gitignoreJetBrains : String :=
  "# =========================================\n" ++
  "# JETBRAINS\n" ++
  "# =========================================\n" ++
  ".idea/\n" ++
  "*.iml\n" ++
  "out/\n"

/-- Source: func gitignoreMacOS, the raw string literal it returns. -/
def gitignoreMacOS : String :=
  "# =========================================\n" ++
  "# macOS\n" ++
  "# =========================================\n" ++
  ".DS_Store\n" ++
  ".AppleDouble\n" ++
  ".LSOverride\n"
/-! ## Generation -/

/-- Source: `generateGitignore`, lines 78-110: the slice `out` as it stands
before the final join. -/
def selectBlocks (types : TagMap) : List String :=
  let out : List String := []
  let out := out ++ [commonGitignore]
  let out := if types.get "go" then out ++ [gitignoreGo] else out
  let out := if types.get "python" then out ++ [gitignorePython] else out
  let out := if types.get "node" then out ++ [gitignoreNode] else out
  let out := if types.get "rust" then out ++ [gitignoreRust] else out
  let out := if types.get "java" then out ++ [gitignoreJava] else out
  let out := if types.get "php" then out ++ [gitignorePHP] else out
  let out := if types.get "flutter" then out ++ [gitignoreFlutter] else out
  let out := if types.get "swift" || types.get "xcode" then out ++ [gitignoreSwiftXcode] else out
  let out := out ++ [gitignoreVSCode, gitignoreJetBrains, gitignoreMacOS]
  out

/-- Source: `generateGitignore`: `strings.Join(out, "\n\n")`. -/
def generateGitignore (types : TagMap) : String :=
  Join (selectBlocks types) "\n\n"

/-! ## Detection -/

/-- One invocation of the walk callback: the base name `info.Name()` of the
entry and whether `err != nil`. -/
structure WalkEntry where
  name : String
  err : Bool
  deriving DecidableEq, Repr

/-- Source: the callback passed to `filepath.Walk` in `detectProjectTypes`
(lines 38-69), as a transformer of the map `types`. -/
def visit (ToLower : String → String) (types : TagMap) (e : WalkEntry) : TagMap :=
  if e.err then types
  else
    let name := ToLower e.name
    let types :=
      if name = "go.mod" then types.set "go" true
      else if name = "package.json" then types.set "node" true
      else if name = "requirements.txt" ∨ name = "pyproject.toml" then types.set "python" true
      else if name = "cargo.toml" then types.set "rust" true
      else if name = "composer.json" then types.set "php" true
      else if name = "pubspec.yaml" then types.set "flutter" true
      else if name = "build.gradle" ∨ name = "pom.xml" then types.set "java" true
      else if name = "project.swift" ∨ name = "package.swift" then types.set "swift" true
      else types
    let types :=
      if HasSuffix name ".xcodeproj" || HasSuffix name ".xcworkspace" then types.set "xcode" true
      else types
    types

/-- Source: `detectProjectTypes`: the callback folded over the entries the
walk visits, starting from the empty map. -/
def detectProjectTypes (ToLower : String → String) (walk : List WalkEntry) : TagMap :=
  walk.foldl (visit ToLower) []

/-- Source: the callback of `detectProjectTypes` with both of its results: the
map after the invocation and the error returned, `nil` at each of its two
`return` statements (lines 40 and 68). -/
def walkFn (ToLower : String → String) (types : TagMap) (e : WalkEntry) :
    TagMap × Option String :=
  if e.err then (types, none)
  else (visit ToLower types e, none)

/-- Source: `filepath.Walk` as `detectProjectTypes` calls it: the callback is
invoked for the entries in order, and the walk stops at the first invocation
that returns an error, which it returns. -/
def Walk (fn : TagMap → WalkEntry → TagMap × Option String) :
    List WalkEntry → TagMap → TagMap × Option String
  | [], types => (types, none)
  | e :: rest, types =>
    match fn types e with
    | (types', some err) => (types', some err)
    | (types', none) => Walk fn rest types'

/-! ## The program -/

/-- What the callback can read of the `os.FileInfo` of an entry. -/
structure FileInfo where
  name : String
  isDir : Bool
  deriving DecidableEq, Repr

/-- The callback invocation for an entry reported without error: of `info` the
callback reads `info.Name()` and nothing else. -/
def WalkEntry.ofInfo (info : FileInfo) : WalkEntry := WalkEntry.mk info.name false

/-- The file system: the content of the file at each path, `none` where there
is no file. -/
abbrev FS := String → Option String

/-- Source: `os.Stat(name)`, of which `main` reads the error alone: no error
iff there is a file at `name`. -/
def Stat (fs : FS) (name : String) : Except String Unit :=
  match fs name with
  | some _ => Except.ok ()
  | none => Except.error "no such file or directory"

/-- Source: `os.Rename(oldpath, newpath)`; `fault` is the error the operating
system raises, if any. On success the file stands at `newpath`, in place of
what was there, and no longer at `oldpath`. -/
def Rename (fs : FS) (oldpath newpath : String) (fault : Option String) : Except String FS :=
  match fault with
  | some e => Except.error e
  | none =>
    match fs oldpath with
    | none => Except.error "no such file or directory"
    | some c =>
      Except.ok (fun p => if p = newpath then some c else if p = oldpath then none else fs p)

/-- A failure of `os.WriteFile`: the error it returns and how far the call
got. `progress = none`: the open failed and the file was not touched;
`progress = some n`: the file was opened, hence created or truncated, and the
first `n` characters of the data were written before the failure. -/
structure WriteFault where
  err : String
  progress : Option Nat
  deriving DecidableEq, Repr

/-- Source: `os.WriteFile(name, data, 0644)`, which opens `name` with
`O_WRONLY|O_CREATE|O_TRUNC`, writes `data` and closes; `fault` is the failure
the operating system raises, if any. The results are the file system after the
call and the error returned. On success the file at `name` holds `data`. -/
def WriteFile (fs : FS) (name data : String) (fault : Option WriteFault) :
    FS × Option String :=
  match fault with
  | none => (fun p => if p = name then some data else fs p, none)
  | some f =>
    match f.progress with
    | none => (fs, some f.err)
    | some n => (fun p => if p = name then some (String.mk (data.data.take n)) else fs p,
        some f.err)

/-- The line `main` prints after the backup attempt. -/
def msgBackedUp : String := "⚠️  已存在 .gitignore，已自动备份为 .gitignore.bak"

/-- The start of the line `main` prints when the write fails; `fmt.Println`
puts a blank between it and the error. -/
def msgWriteFailed : String := "写入 .gitignore 失败:"

/-- The line `main` prints when the write succeeds. -/
def msgGenerated : String := "✅ 已生成 .gitignore"

/-- The state of a run: the file system and the lines printed so far. -/
structure Run where
  fs : FS
  stdout : List String

/-- Source: `main`, run on the file system `fs`; `walk` is what `filepath.Walk`
reports for the current directory. -/
def main (ToLower : String → String) (walk : List WalkEntry)
    (renameFault : Option String) (writeFault : Option WriteFault) (fs : FS) : Run :=
  let projectTypes := detectProjectTypes ToLower walk
  let gitignore := generateGitignore projectTypes
  let target := ".gitignore"
  let s : Run := Run.mk fs []
  let s : Run :=
    match Stat s.fs target with
    | Except.ok _ =>
      let fs' :=
        match Rename s.fs target (target ++ ".bak") renameFault with
        | Except.ok fs' => fs'
        | Except.error _ => s.fs
      Run.mk fs' (s.stdout ++ [msgBackedUp])
    | Except.error _ => s
  match WriteFile s.fs target gitignore writeFault with
  | (fs', some err) => Run.mk fs' (s.stdout ++ [msgWriteFailed ++ " " ++ err])
  | (fs', none) => Run.mk fs' (s.stdout ++ [msgGenerated])

/-! ## The specification's reading of the generator -/

/-- The language blocks in the canonical order of the specification, each with
the tag that selects it (the Swift/Xcode block, selected by two tags, is kept
apart). -/
def canonicalOrder : List (String × String) :=
  [("go", gitignoreGo), ("python", gitignorePython), ("node", gitignoreNode),
   ("rust", gitignoreRust), ("java", gitignoreJava), ("php", gitignorePHP),
   ("flutter", gitignoreFlutter)]

/-- The block list as the specification words it: the common block, the
language blocks of the tags present, the Swift/Xcode block when one of its two
tags is present, the three trailing blocks. -/
def specBlocks (T : TagMap) : List String :=
  [commonGitignore]
    ++ (canonicalOrder.filter (fun tb => T.get tb.1)).map Prod.snd
    ++ (if T.get "swift" = true ∨ T.get "xcode" = true then [gitignoreSwiftXcode] else [])
    ++ [gitignoreVSCode, gitignoreJetBrains, gitignoreMacOS]

/-- The lookup table of the specification: the tag `k` is set by an entry
whose lower-cased name is `name`. -/
def specTag (name k : String) : Prop :=
  (k = "go" ∧ name = "go.mod") ∨
  (k = "node" ∧ name = "package.json") ∨
  (k = "python" ∧ (name = "requirements.txt" ∨ name = "pyproject.toml")) ∨
  (k = "rust" ∧ name = "cargo.toml") ∨
  (k = "php" ∧ name = "composer.json") ∨
  (k = "flutter" ∧ name = "pubspec.yaml") ∨
  (k = "java" ∧ (name = "build.gradle" ∨ name = "pom.xml")) ∨
  (k = "swift" ∧ (name = "project.swift" ∨ name = "package.swift")) ∨
  (k = "xcode" ∧ (".xcodeproj".data <:+ name.data ∨ ".xcworkspace".data <:+ name.data))

/-- The nine tags of the vocabulary. -/
def allTags : List String :=
  ["go", "node", "python", "rust", "php", "flutter", "java", "swift", "xcode"]

/-- The twelve template blocks. -/
def allBlocks : List String :=
  [commonGitignore, gitignoreGo, gitignorePython, gitignoreNode, gitignoreRust,
   gitignoreJava, gitignorePHP, gitignoreFlutter, gitignoreSwiftXcode,
   gitignoreVSCode, gitignoreJetBrains, gitignoreMacOS]

/-- The text every template block starts with: the rule line and the start
of the title line. -/
def blockHead : String :=
  "# =========================================\n# "

/-- The block list as a function of the eight conditions `generateGitignore`
tests. -/
def flagBlocks (go python node rust java php flutter sx : Bool) : List String :=
  [commonGitignore]
    ++ (if go then [gitignoreGo] else [])
    ++ (if python then [gitignorePython] else [])
    ++ (if node then [gitignoreNode] else [])
    ++ (if rust then [gitignoreRust] else [])
    ++ (if java then [gitignoreJava] else [])
    ++ (if php then [gitignorePHP] else [])
    ++ (if flutter then [gitignoreFlutter] else [])
    ++ (if sx then [gitignoreSwiftXcode] else [])
    ++ [gitignoreVSCode, gitignoreJetBrains, gitignoreMacOS]

/-! ## Lemmas on strings -/

theorem intercalate_go_eq (sep : String) (l : List String) (acc : String) :
    String.intercalate.go acc sep l =
      match l with
      | [] => acc
      | a :: l => acc ++ sep ++ Join (a :: l) sep := by
  induction l generalizing acc with
  | nil => rfl
  | cons a l ih =>
    rw [String.intercalate.go, ih]
    cases l with
    | nil => rfl
    | cons b l => simp only [Join, String.append_assoc]

theorem Join_eq_intercalate (l : List String) (sep : String) :
    Join l sep = sep.intercalate l := by
  cases l with
  | nil => rfl
  | cons a l =>
    rw [String.intercalate, intercalate_go_eq]
    cases l with
    | nil => rfl
    | cons b l => simp only [Join, String.append_assoc]

theorem startsWith_iff (p s : List Char) : startsWith p s = true ↔ p <+: s := by
  induction p generalizing s with
  | nil => simp [startsWith]
  | cons a p ih =>
    cases s with
    | nil => simp [startsWith]
    | cons b s => simp [startsWith, ih, List.cons_prefix_cons]

theorem occurrences_pos_iff (p s : List Char) : 0 < occurrences p s ↔ p <:+: s := by
  induction s with
  | nil =>
    by_cases hp : p = []
    · simp [occurrences, hp]
    · simp [occurrences, hp]
  | cons c s ih =>
    rw [occurrences, List.infix_cons_iff, ← ih, ← startsWith_iff]
    by_cases h : startsWith p (c :: s) = true
    · simp [h]
    · simp [h]

theorem matchAt_append (p s z : List Char) (r : Bool) (h : matchAt p s = some r) :
    startsWith p (s ++ z) = r := by
  induction p generalizing s with
  | nil =>
    simp [matchAt] at h
    simp [startsWith, h]
  | cons a p ih =>
    cases s with
    | nil => simp [matchAt] at h
    | cons b s =>
      by_cases hab : a = b
      · simp only [matchAt, hab, if_true] at h
        simp [startsWith, hab, ih s h]
      · simp only [matchAt, hab, if_false] at h
        simp at h
        simp [startsWith, hab, h]

theorem occurrences_append (p q x z : List Char) (n : Nat) (h : startsIn p q x = some n) :
    occurrences p (x ++ (q ++ z)) = n + occurrences p (q ++ z) := by
  induction x generalizing n with
  | nil =>
    simp [startsIn] at h
    simp [← h]
  | cons c x ih =>
    rw [startsIn] at h
    cases hm : matchAt p (c :: (x ++ q)) with
    | none => simp [hm] at h
    | some b =>
      cases hs : startsIn p q x with
      | none => simp [hm, hs] at h
      | some m =>
        simp only [hm, hs] at h
        have hb := matchAt_append p (c :: (x ++ q)) z b hm
        have hx := ih m hs
        simp only [List.cons_append, List.append_assoc] at hb
        rw [List.cons_append, occurrences, hb, hx]
        simp at h
        omega

theorem Join_cons_cons (a b : String) (l : List String) (sep : String) :
    Join (a :: b :: l) sep = a ++ sep ++ Join (b :: l) sep := rfl

theorem Join_append (l₁ l₂ : List String) (sep : String) (h₁ : l₁ ≠ []) (h₂ : l₂ ≠ []) :
    Join (l₁ ++ l₂) sep = Join l₁ sep ++ sep ++ Join l₂ sep := by
  induction l₁ with
  | nil => exact absurd rfl h₁
  | cons a l₁ ih =>
    cases l₁ with
    | nil =>
      cases l₂ with
      | nil => exact absurd rfl h₂
      | cons b l₂ => rfl
    | cons b l₁ =>
      have := ih (by simp)
      simp only [List.cons_append] at this ⊢
      rw [Join_cons_cons, Join_cons_cons, this]
      simp only [String.append_assoc]

theorem allBlocks_head :
    ∀ b ∈ allBlocks, startsWith blockHead.data b.data = true := by
  decide!

theorem allBlocks_startsIn :
    ∀ p ∈ allBlocks, ∀ b ∈ allBlocks,
      startsIn p.data blockHead.data (b.data ++ "\n\n".data) = some (if p = b then 1 else 0) := by
  decide!

theorem allBlocks_occurrences :
    ∀ p ∈ allBlocks, ∀ b ∈ allBlocks,
      occurrences p.data b.data = if p = b then 1 else 0 := by
  decide!

theorem allBlocks_nonempty :
    ∀ p ∈ allBlocks, occurrences p.data [] = 0 := by
  decide!

theorem Join_cons_starts (b : String) (l : List String) (sep : String) :
    b.data <+: (Join (b :: l) sep).data := by
  cases l with
  | nil => exact List.prefix_refl _
  | cons c l =>
    rw [Join_cons_cons]
    simp only [String.data_append, List.append_assoc]
    exact List.prefix_append _ _

/-- In a join of template blocks, a template block occurs as often as it is
listed. -/
theorem occurrences_Join (bs : List String) (hbs : ∀ b ∈ bs, b ∈ allBlocks)
    (p : String) (hp : p ∈ allBlocks) :
    occurrences p.data (Join bs "\n\n").data = bs.count p := by
  induction bs with
  | nil => simpa [Join] using allBlocks_nonempty p hp
  | cons a bs ih =>
    have ha : a ∈ allBlocks := hbs a (List.mem_cons_self _ _)
    cases bs with
    | nil =>
      rw [Join, allBlocks_occurrences p hp a ha]
      by_cases hpa : p = a
      · simp [hpa]
      · have : ¬ a = p := fun h => hpa h.symm
        simp [hpa, List.count_cons, this]
    | cons b bs =>
      have hb : b ∈ allBlocks := hbs b (by simp)
      have hrest := ih (fun c hc => hbs c (List.mem_cons_of_mem _ hc))
      have hpre : blockHead.data <+: (Join (b :: bs) "\n\n").data :=
        ((startsWith_iff _ _).1 (allBlocks_head b hb)).trans (Join_cons_starts b bs _)
      obtain ⟨z, hz⟩ := hpre
      have hcount := occurrences_append p.data blockHead.data (a.data ++ "\n\n".data) z _
        (allBlocks_startsIn p hp a ha)
      rw [Join_cons_cons]
      simp only [String.data_append]
      rw [← hz] at hrest ⊢
      rw [hcount, hrest]
      by_cases hpa : p = a
      · subst hpa
        simp [List.count_cons, Nat.add_comm]
      · have : ¬ a = p := fun h => hpa h.symm
        simp [hpa, List.count_cons, this]

theorem selectBlocks_eq_flagBlocks (T : TagMap) :
    selectBlocks T = flagBlocks (T.get "go") (T.get "python") (T.get "node") (T.get "rust")
      (T.get "java") (T.get "php") (T.get "flutter") (T.get "swift" || T.get "xcode") := by
  unfold selectBlocks flagBlocks
  cases T.get "go" <;> cases T.get "python" <;> cases T.get "node" <;> cases T.get "rust" <;>
    cases T.get "java" <;> cases T.get "php" <;> cases T.get "flutter" <;>
    cases (T.get "swift" || T.get "xcode") <;> rfl

theorem specBlocks_eq_flagBlocks (T : TagMap) :
    specBlocks T = flagBlocks (T.get "go") (T.get "python") (T.get "node") (T.get "rust")
      (T.get "java") (T.get "php") (T.get "flutter") (T.get "swift" || T.get "xcode") := by
  unfold specBlocks flagBlocks canonicalOrder
  simp only [List.filter]
  generalize T.get "go" = a
  generalize T.get "python" = b
  generalize T.get "node" = c
  generalize T.get "rust" = d
  generalize T.get "java" = e
  generalize T.get "php" = f
  generalize T.get "flutter" = g
  generalize T.get "swift" = h
  generalize T.get "xcode" = i
  cases a <;> cases b <;> cases c <;> cases d <;> cases e <;> cases f <;> cases g <;>
    cases h <;> cases i <;> rfl

theorem allBlocks_nodup : allBlocks.Nodup := by decide!

theorem mem_ite_singleton (p x : String) (a : Bool) :
    p ∈ (if a = true then [x] else []) ↔ a = true ∧ p = x := by
  cases a <;> simp

theorem mem_flagBlocks (p : String) (a b c d e f g h : Bool) :
    p ∈ flagBlocks a b c d e f g h ↔
      p = commonGitignore ∨ (a = true ∧ p = gitignoreGo) ∨ (b = true ∧ p = gitignorePython) ∨
      (c = true ∧ p = gitignoreNode) ∨ (d = true ∧ p = gitignoreRust) ∨
      (e = true ∧ p = gitignoreJava) ∨ (f = true ∧ p = gitignorePHP) ∨
      (g = true ∧ p = gitignoreFlutter) ∨ (h = true ∧ p = gitignoreSwiftXcode) ∨
      p = gitignoreVSCode ∨ p = gitignoreJetBrains ∨ p = gitignoreMacOS := by
  simp only [flagBlocks, List.mem_append, mem_ite_singleton, List.mem_cons, List.mem_singleton,
    List.not_mem_nil, or_false, or_assoc]

theorem ite_sublist_ite (a a' : Bool) (x : String) (h : a = true → a' = true) :
    List.Sublist (if a = true then [x] else []) (if a' = true then [x] else []) := by
  cases a <;> cases a' <;> simp at h ⊢

theorem flagBlocks_mono (a b c d e f g h a' b' c' d' e' f' g' h' : Bool)
    (ha : a = true → a' = true) (hb : b = true → b' = true) (hc : c = true → c' = true)
    (hd : d = true → d' = true) (he : e = true → e' = true) (hf : f = true → f' = true)
    (hg : g = true → g' = true) (hh : h = true → h' = true) :
    List.Sublist (flagBlocks a b c d e f g h) (flagBlocks a' b' c' d' e' f' g' h') := by
  unfold flagBlocks
  exact (((((((((List.Sublist.refl _).append (ite_sublist_ite _ _ _ ha)).append
    (ite_sublist_ite _ _ _ hb)).append (ite_sublist_ite _ _ _ hc)).append
    (ite_sublist_ite _ _ _ hd)).append (ite_sublist_ite _ _ _ he)).append
    (ite_sublist_ite _ _ _ hf)).append (ite_sublist_ite _ _ _ hg)).append
    (ite_sublist_ite _ _ _ hh)).append (List.Sublist.refl _)

theorem flagBlocks_sublist (a b c d e f g h : Bool) :
    List.Sublist (flagBlocks a b c d e f g h) allBlocks :=
  flagBlocks_mono a b c d e f g h true true true true true true true true
    (fun _ => rfl) (fun _ => rfl) (fun _ => rfl) (fun _ => rfl) (fun _ => rfl) (fun _ => rfl)
    (fun _ => rfl) (fun _ => rfl)

theorem mem_flagBlocks_iff (a b c d e f g h : Bool) :
    commonGitignore ∈ flagBlocks a b c d e f g h ∧
    (gitignoreGo ∈ flagBlocks a b c d e f g h ↔ a = true) ∧
    (gitignorePython ∈ flagBlocks a b c d e f g h ↔ b = true) ∧
    (gitignoreNode ∈ flagBlocks a b c d e f g h ↔ c = true) ∧
    (gitignoreRust ∈ flagBlocks a b c d e f g h ↔ d = true) ∧
    (gitignoreJava ∈ flagBlocks a b c d e f g h ↔ e = true) ∧
    (gitignorePHP ∈ flagBlocks a b c d e f g h ↔ f = true) ∧
    (gitignoreFlutter ∈ flagBlocks a b c d e f g h ↔ g = true) ∧
    (gitignoreSwiftXcode ∈ flagBlocks a b c d e f g h ↔ h = true) ∧
    gitignoreVSCode ∈ flagBlocks a b c d e f g h ∧
    gitignoreJetBrains ∈ flagBlocks a b c d e f g h ∧
    gitignoreMacOS ∈ flagBlocks a b c d e f g h := by
  have hn := allBlocks_nodup
  simp only [allBlocks, List.nodup_cons, List.mem_cons, List.mem_singleton, not_or,
    List.not_mem_nil, not_false_eq_true, List.nodup_nil, and_true] at hn
  simp only [mem_flagBlocks]
  simp [hn, Ne.symm]

theorem selectBlocks_sublist (T : TagMap) : List.Sublist (selectBlocks T) allBlocks := by
  rw [selectBlocks_eq_flagBlocks]
  exact flagBlocks_sublist _ _ _ _ _ _ _ _

theorem selectBlocks_nodup (T : TagMap) : (selectBlocks T).Nodup :=
  (selectBlocks_sublist T).nodup allBlocks_nodup

/-- A template block occurs in the generated text once when it is selected and
not at all otherwise. -/
theorem occurrences_generate (T : TagMap) (p : String) (hp : p ∈ allBlocks) :
    occurrences p.data (generateGitignore T).data = if p ∈ selectBlocks T then 1 else 0 := by
  unfold generateGitignore
  rw [occurrences_Join _ (fun b hb => (selectBlocks_sublist T).subset hb) p hp]
  exact List.count_eq_of_nodup (selectBlocks_nodup T)

theorem occursOnce_iff_mem (T : TagMap) (p : String) (hp : p ∈ allBlocks) :
    OccursOnce (generateGitignore T) p ↔ p ∈ selectBlocks T := by
  unfold OccursOnce
  rw [occurrences_generate T p hp]
  by_cases h : p ∈ selectBlocks T
  · simp [h]
  · simp [h]

theorem contains_iff_mem (T : TagMap) (p : String) (hp : p ∈ allBlocks) :
    Contains (generateGitignore T) p ↔ p ∈ selectBlocks T := by
  unfold Contains
  rw [← occurrences_pos_iff, occurrences_generate T p hp]
  by_cases h : p ∈ selectBlocks T
  · simp [h]
  · simp [h]

theorem mem_selectBlocks (T : TagMap) :
    commonGitignore ∈ selectBlocks T ∧
    (gitignoreGo ∈ selectBlocks T ↔ T.get "go" = true) ∧
    (gitignorePython ∈ selectBlocks T ↔ T.get "python" = true) ∧
    (gitignoreNode ∈ selectBlocks T ↔ T.get "node" = true) ∧
    (gitignoreRust ∈ selectBlocks T ↔ T.get "rust" = true) ∧
    (gitignoreJava ∈ selectBlocks T ↔ T.get "java" = true) ∧
    (gitignorePHP ∈ selectBlocks T ↔ T.get "php" = true) ∧
    (gitignoreFlutter ∈ selectBlocks T ↔ T.get "flutter" = true) ∧
    (gitignoreSwiftXcode ∈ selectBlocks T ↔ (T.get "swift" = true ∨ T.get "xcode" = true)) ∧
    gitignoreVSCode ∈ selectBlocks T ∧
    gitignoreJetBrains ∈ selectBlocks T ∧
    gitignoreMacOS ∈ selectBlocks T := by
  rw [selectBlocks_eq_flagBlocks]
  simpa only [Bool.or_eq_true] using mem_flagBlocks_iff (T.get "go") (T.get "python")
    (T.get "node") (T.get "rust") (T.get "java") (T.get "php") (T.get "flutter")
    (T.get "swift" || T.get "xcode")

theorem endsLine_spec (l : List Char) (h : endsLine l = true) :
    ∃ (l₀ : List Char) (x : Char), x ≠ Char.ofNat 10 ∧ l = l₀ ++ [x] ++ "\n".data := by
  unfold endsLine at h
  cases hr : l.reverse with
  | nil => simp [hr] at h
  | cons n t =>
    cases t with
    | nil => simp [hr] at h
    | cons x t =>
      simp only [hr, Bool.and_eq_true, beq_iff_eq, bne_iff_ne] at h
      refine ⟨t.reverse, x, h.2, ?_⟩
      have hl : l = (n :: x :: t).reverse := by rw [← hr, List.reverse_reverse]
      rw [hl, h.1]
      simp

theorem allBlocks_shape :
    ∀ b ∈ allBlocks, startsWith "# ".data b.data = true ∧ endsLine b.data = true := by
  decide!

theorem Join_snoc_suffix (l : List String) (a sep : String) :
    a.data <:+ (Join (l ++ [a]) sep).data := by
  cases l with
  | nil => exact List.suffix_refl _
  | cons c l =>
    rw [Join_append (c :: l) [a] sep (by simp) (by simp)]
    simp only [String.data_append, Join]
    exact List.suffix_append _ _

/-! ## Lemmas on tag maps -/

theorem lookup_filter_ne (m : TagMap) (k k' : String) (h : k' ≠ k) :
    (m.filter (fun p => p.1 != k)).lookup k' = m.lookup k' := by
  induction m with
  | nil => rfl
  | cons p m ih =>
    obtain ⟨a, v⟩ := p
    by_cases hak : a = k
    · subst hak
      have hne : (k' == a) = false := by simpa using h
      simp [List.filter, List.lookup, hne, ih]
    · have : (a != k) = true := by simpa using hak
      simp only [List.filter, this, List.lookup]
      rw [ih]

theorem TagMap.get_set (m : TagMap) (k : String) (v : Bool) (k' : String) :
    (m.set k v).get k' = if k' = k then v else m.get k' := by
  unfold TagMap.get TagMap.set
  by_cases h : k' = k
  · subst h
    simp [List.lookup]
  · have hne : (k' == k) = false := by simpa using h
    simp only [List.lookup, hne, h, if_false]
    rw [lookup_filter_ne m k k' h]

theorem TagMap.get_nil (k : String) : TagMap.get [] k = false := rfl

/-! ## Lemmas on detection -/

theorem HasSuffix_iff (s t : String) : HasSuffix s t = true ↔ t.data <:+ s.data := by
  unfold HasSuffix
  rw [List.suffix_iff_eq_drop]
  simp only [Bool.and_eq_true, decide_eq_true_eq]
  constructor
  · rintro ⟨_, h⟩
    exact h.symm
  · intro h
    refine ⟨?_, h.symm⟩
    by_contra hlt
    have h0 : s.data.length - t.data.length = 0 := by omega
    rw [h0, List.drop_zero] at h
    rw [h] at hlt
    omega

theorem markers_no_suffix :
    ∀ n ∈ ["go.mod", "package.json", "requirements.txt", "pyproject.toml", "cargo.toml",
        "composer.json", "pubspec.yaml", "build.gradle", "pom.xml", "project.swift",
        "package.swift"],
      HasSuffix n ".xcodeproj" = false ∧ HasSuffix n ".xcworkspace" = false := by
  decide

theorem specTag_iff (name k : String) :
    specTag name k ↔
      (k = "go" ∧ name = "go.mod") ∨
      (k = "node" ∧ name = "package.json") ∨
      (k = "python" ∧ (name = "requirements.txt" ∨ name = "pyproject.toml")) ∨
      (k = "rust" ∧ name = "cargo.toml") ∨
      (k = "php" ∧ name = "composer.json") ∨
      (k = "flutter" ∧ name = "pubspec.yaml") ∨
      (k = "java" ∧ (name = "build.gradle" ∨ name = "pom.xml")) ∨
      (k = "swift" ∧ (name = "project.swift" ∨ name = "package.swift")) ∨
      (k = "xcode" ∧
        (HasSuffix name ".xcodeproj" || HasSuffix name ".xcworkspace") = true) := by
  unfold specTag
  rw [Bool.or_eq_true, HasSuffix_iff, HasSuffix_iff]

/-- The callback sets exactly the tags of the lookup table, and only for an
entry reported without error. -/
theorem get_visit (L : String → String) (m : TagMap) (e : WalkEntry) (k : String) :
    (visit L m e).get k = true ↔
      m.get k = true ∨ (e.err = false ∧ specTag (L e.name) k) := by
  rw [specTag_iff]
  unfold visit
  cases herr : e.err with
  | true => simp
  | false =>
    simp only [Bool.false_eq_true, if_false, true_and]
    generalize L e.name = name
    have hs := markers_no_suffix
    simp only [List.mem_cons, List.mem_singleton, List.not_mem_nil, or_false, forall_eq_or_imp,
      forall_eq] at hs
    by_cases hS : (HasSuffix name ".xcodeproj" || HasSuffix name ".xcworkspace") = true
    · have h1 : name ≠ "go.mod" := by rintro rfl; simp [hs] at hS
      have h2 : name ≠ "package.json" := by rintro rfl; simp [hs] at hS
      have h3 : name ≠ "requirements.txt" := by rintro rfl; simp [hs] at hS
      have h4 : name ≠ "pyproject.toml" := by rintro rfl; simp [hs] at hS
      have h5 : name ≠ "cargo.toml" := by rintro rfl; simp [hs] at hS
      have h6 : name ≠ "composer.json" := by rintro rfl; simp [hs] at hS
      have h7 : name ≠ "pubspec.yaml" := by rintro rfl; simp [hs] at hS
      have h8 : name ≠ "build.gradle" := by rintro rfl; simp [hs] at hS
      have h9 : name ≠ "pom.xml" := by rintro rfl; simp [hs] at hS
      have h10 : name ≠ "project.swift" := by rintro rfl; simp [hs] at hS
      have h11 : name ≠ "package.swift" := by rintro rfl; simp [hs] at hS
      simp only [hS, h1, h2, h3, h4, h5, h6, h7, h8, h9, h10, h11, if_true, if_false, or_self,
        and_false, false_or, and_true, TagMap.get_set]
      by_cases hk : k = "xcode"
      · simp [hk]
      · simp [hk]
    · simp only [hS, if_false, and_false, or_false, Bool.false_eq_true]
      split_ifs with h1 h2 h3 h4 h5 h6 h7 h8
      · subst h1
        by_cases hk : k = "go" <;> simp [TagMap.get_set, hk]
      · subst h2
        by_cases hk : k = "node" <;> simp [TagMap.get_set, hk]
      · by_cases hk : k = "python" <;> rcases h3 with h | h <;> subst h <;>
          simp [TagMap.get_set, hk]
      · subst h4
        by_cases hk : k = "rust" <;> simp [TagMap.get_set, hk]
      · subst h5
        by_cases hk : k = "php" <;> simp [TagMap.get_set, hk]
      · subst h6
        by_cases hk : k = "flutter" <;> simp [TagMap.get_set, hk]
      · by_cases hk : k = "java" <;> rcases h7 with h | h <;> subst h <;>
          simp [TagMap.get_set, hk]
      · by_cases hk : k = "swift" <;> rcases h8 with h | h <;> subst h <;>
          simp [TagMap.get_set, hk]
      · simp only [not_or] at h3 h7 h8
        simp [h1, h2, h3, h4, h5, h6, h7, h8]

theorem get_foldl_visit (L : String → String) (walk : List WalkEntry) (m : TagMap) (k : String) :
    (walk.foldl (visit L) m).get k = true ↔
      m.get k = true ∨ ∃ e ∈ walk, e.err = false ∧ specTag (L e.name) k := by
  induction walk generalizing m with
  | nil => simp
  | cons e walk ih =>
    rw [List.foldl_cons, ih, get_visit]
    simp only [List.mem_cons, exists_eq_or_imp, or_assoc]

/-- The tags detected are the tags the lookup table gives for the entries
reported without error. -/
theorem get_detectProjectTypes (L : String → String) (walk : List WalkEntry) (k : String) :
    (detectProjectTypes L walk).get k = true ↔
      ∃ e ∈ walk, e.err = false ∧ specTag (L e.name) k := by
  unfold detectProjectTypes
  rw [get_foldl_visit]
  simp [TagMap.get_nil]


theorem specTag_allTags (name k : String) (h : specTag name k) : k ∈ allTags := by
  unfold specTag at h
  unfold allTags
  rcases h with h | h | h | h | h | h | h | h | h <;> simp [h.1]

theorem lookup_of_mem (m : TagMap) (k : String) (v : Bool) (h : (k, v) ∈ m) :
    ∃ v', m.lookup k = some v' ∧ (k, v') ∈ m := by
  induction m with
  | nil => simp at h
  | cons p m ih =>
    obtain ⟨a, w⟩ := p
    by_cases hka : k = a
    · subst hka
      exact ⟨w, by simp [List.lookup], List.mem_cons_self _ _⟩
    · have hne : (k == a) = false := by simpa using hka
      have hm : (k, v) ∈ m := by
        rcases List.mem_cons.1 h with h' | h'
        · exact absurd (congrArg Prod.fst h') hka
        · exact h'
      obtain ⟨v', hv', hmem⟩ := ih hm
      exact ⟨v', by simp [List.lookup, hne, hv'], List.mem_cons_of_mem _ hmem⟩

theorem allTrue_set (m : TagMap) (k : String) (h : m.AllTrue) : (m.set k true).AllTrue := by
  intro p hp
  unfold TagMap.set at hp
  rcases List.mem_cons.1 hp with h' | h'
  · rw [h']
  · exact h p (List.mem_of_mem_filter h')

theorem allTrue_visit (L : String → String) (m : TagMap) (e : WalkEntry)
    (h : m.AllTrue) : (visit L m e).AllTrue := by
  unfold visit
  cases herr : e.err with
  | true => simpa using h
  | false =>
    simp only [Bool.false_eq_true, if_false]
    split_ifs <;> repeat (first | assumption | apply allTrue_set)

theorem allTrue_foldl (L : String → String) (walk : List WalkEntry) (m : TagMap)
    (h : m.AllTrue) : (walk.foldl (visit L) m).AllTrue := by
  induction walk generalizing m with
  | nil => exact h
  | cons e walk ih => exact ih _ (allTrue_visit L m e h)

/-- Every key stored by the detection is stored with `true`, so that the keys
of the map are the tags it reads as `true`. -/
theorem get_of_mem_detectProjectTypes (L : String → String) (walk : List WalkEntry)
    (k : String) (v : Bool) (h : (k, v) ∈ detectProjectTypes L walk) :
    v = true ∧ (detectProjectTypes L walk).get k = true := by
  have hall : (detectProjectTypes L walk).AllTrue :=
    allTrue_foldl L walk [] (fun p hp => absurd hp (List.not_mem_nil p))
  obtain ⟨v', hv', hmem⟩ := lookup_of_mem _ k v h
  refine ⟨hall _ h, ?_⟩
  have : v' = true := hall _ hmem
  unfold TagMap.get
  rw [hv', this]

theorem selectBlocks_congr (T1 T2 : TagMap) (h : ∀ k, T1.get k = T2.get k) :
    selectBlocks T1 = selectBlocks T2 := by
  rw [selectBlocks_eq_flagBlocks, selectBlocks_eq_flagBlocks]
  simp only [h]

theorem specTag_package_json (k : String) : specTag "package.json" k ↔ k = "node" := by
  have h1 : HasSuffix "package.json" ".xcodeproj" = false := by decide
  have h2 : HasSuffix "package.json" ".xcworkspace" = false := by decide
  rw [specTag_iff]
  simp [h1, h2]

theorem specTag_requirements_txt (k : String) :
    specTag "requirements.txt" k ↔ k = "python" := by
  have h1 : HasSuffix "requirements.txt" ".xcodeproj" = false := by decide
  have h2 : HasSuffix "requirements.txt" ".xcworkspace" = false := by decide
  rw [specTag_iff]
  simp [h1, h2]

theorem specTag_dot (k : String) : ¬ specTag "." k := by
  have h1 : HasSuffix "." ".xcodeproj" = false := by decide
  have h2 : HasSuffix "." ".xcworkspace" = false := by decide
  rw [specTag_iff]
  simp [h1, h2]

theorem get_eq_false_of_not (T : TagMap) (k : String) (h : ¬ T.get k = true) :
    T.get k = false := by
  simpa using h

theorem visit_congr (L : String → String) (m : TagMap) (n n' : String) (h : L n = L n') :
    visit L m (WalkEntry.mk n false) = visit L m (WalkEntry.mk n' false) := by
  unfold visit
  simp only [h]

theorem visit_of_no_tag (L : String → String) (m : TagMap) (e : WalkEntry)
    (h : ∀ k, ¬ specTag (L e.name) k) : visit L m e = m := by
  unfold visit
  cases herr : e.err with
  | true => simp
  | false =>
    simp only [specTag_iff] at h
    generalize L e.name = name at h
    have h1 := h "go"
    have h2 := h "node"
    have h3 := h "python"
    have h4 := h "rust"
    have h5 := h "php"
    have h6 := h "flutter"
    have h7 := h "java"
    have h8 := h "swift"
    have h9 := h "xcode"
    simp at h1 h2 h3 h4 h5 h6 h7 h8 h9
    simp [h1, h2, h3, h4, h5, h6, h7, h8, h9]

theorem detectProjectTypes_of_no_tag (L : String → String) (walk : List WalkEntry)
    (h : ∀ e ∈ walk, e.err = false → ∀ k, ¬ specTag (L e.name) k) :
    detectProjectTypes L walk = [] := by
  unfold detectProjectTypes
  generalize ([] : TagMap) = m
  induction walk generalizing m with
  | nil => rfl
  | cons e walk ih =>
    rw [List.foldl_cons]
    have hv : visit L m e = m := by
      cases herr : e.err with
      | true => simp [visit, herr]
      | false => exact visit_of_no_tag L m e (h e (List.mem_cons_self _ _) herr)
    rw [hv]
    exact ih (fun e' he' => h e' (List.mem_cons_of_mem _ he')) m

theorem asciiToLower_idem (s : String) : asciiToLower (asciiToLower s) = asciiToLower s := by
  unfold asciiToLower
  simp only [List.map_map]
  congr 1
  apply List.map_congr_left
  intro c _
  simp only [Function.comp]
  by_cases hc : 65 ≤ c.toNat ∧ c.toNat ≤ 90
  · simp only [hc, and_self, if_true]
    obtain ⟨h1, h2⟩ := hc
    generalize c.toNat = n at h1 h2
    interval_cases n <;> decide
  · simp only [hc, if_false]

/-! ## Lemmas on the program -/

theorem bak_path : ".gitignore" ++ ".bak" = ".gitignore.bak" := by decide

/-- The run when no `.gitignore` exists: the write alone. -/
theorem main_of_absent (L : String → String) (walk : List WalkEntry)
    (renameFault : Option String) (writeFault : Option WriteFault) (fs : FS)
    (h : fs ".gitignore" = none) :
    main L walk renameFault writeFault fs =
      match writeFault with
      | some f => Run.mk
          (WriteFile fs ".gitignore" (generateGitignore (detectProjectTypes L walk))
            (some f)).1
          [msgWriteFailed ++ " " ++ f.err]
      | none => Run.mk
          (fun p => if p = ".gitignore" then
            some (generateGitignore (detectProjectTypes L walk)) else fs p)
          [msgGenerated] := by
  unfold main
  cases writeFault with
  | none => simp [Stat, WriteFile, h]
  | some f => rcases f with ⟨err, _ | n⟩ <;> simp [Stat, WriteFile, h]

/-- The run when `.gitignore` exists and the rename fails: the file system
reaches the write as it was. -/
theorem main_of_rename_failed (L : String → String) (walk : List WalkEntry)
    (e : String) (writeFault : Option WriteFault) (fs : FS) (C : String)
    (h : fs ".gitignore" = some C) :
    main L walk (some e) writeFault fs =
      match writeFault with
      | some f => Run.mk
          (WriteFile fs ".gitignore" (generateGitignore (detectProjectTypes L walk))
            (some f)).1
          [msgBackedUp, msgWriteFailed ++ " " ++ f.err]
      | none => Run.mk
          (fun p => if p = ".gitignore" then
            some (generateGitignore (detectProjectTypes L walk)) else fs p)
          [msgBackedUp, msgGenerated] := by
  unfold main
  cases writeFault with
  | none => simp [Stat, Rename, WriteFile, h]
  | some f => rcases f with ⟨err, _ | n⟩ <;> simp [Stat, Rename, WriteFile, h]

/-- The run when `.gitignore` exists and the rename succeeds. -/
theorem main_of_renamed (L : String → String) (walk : List WalkEntry)
    (writeFault : Option WriteFault) (fs : FS) (C : String) (h : fs ".gitignore" = some C) :
    main L walk none writeFault fs =
      match writeFault with
      | some f => Run.mk
          (WriteFile
            (fun p => if p = ".gitignore.bak" then some C
              else if p = ".gitignore" then none else fs p)
            ".gitignore" (generateGitignore (detectProjectTypes L walk)) (some f)).1
          [msgBackedUp, msgWriteFailed ++ " " ++ f.err]
      | none => Run.mk
          (fun p => if p = ".gitignore" then
            some (generateGitignore (detectProjectTypes L walk))
            else if p = ".gitignore.bak" then some C
            else if p = ".gitignore" then none else fs p)
          [msgBackedUp, msgGenerated] := by
  unfold main
  cases writeFault with
  | none => simp [Stat, Rename, WriteFile, h, bak_path]
  | some f => rcases f with ⟨err, _ | n⟩ <;> simp [Stat, Rename, WriteFile, h, bak_path]

/-- The file system a failed write leaves: untouched when the open failed,
otherwise the target holds the characters written before the failure. -/
theorem WriteFile_fault_fs (fs : FS) (name data : String) (f : WriteFault) (p : String) :
    (WriteFile fs name data (some f)).1 p =
      match f.progress with
      | none => fs p
      | some n => if p = name then some (String.mk (data.data.take n)) else fs p := by
  rcases f with ⟨err, _ | n⟩ <;> simp [WriteFile]

theorem msgGenerated_ne_failed (err : String) :
    msgGenerated ≠ msgWriteFailed ++ " " ++ err := by
  intro h
  have hd := congrArg String.data h
  simp [msgGenerated, msgWriteFailed, String.data_append] at hd

theorem msgGenerated_ne_backedUp : msgGenerated ≠ msgBackedUp := by decide

/-! ## Lemmas on the characters and lines of the generated text -/

theorem mem_Join_data (l : List String) (sep : String) (c : Char)
    (h : c ∈ (Join l sep).data) : c ∈ sep.data ∨ ∃ b ∈ l, c ∈ b.data := by
  induction l with
  | nil => simp [Join] at h
  | cons a l ih =>
    cases l with
    | nil => exact Or.inr ⟨a, by simp, h⟩
    | cons b l =>
      rw [Join_cons_cons] at h
      simp only [String.data_append, List.mem_append] at h
      rcases h with (h | h) | h
      · exact Or.inr ⟨a, by simp, h⟩
      · exact Or.inl h
      · rcases ih h with h' | ⟨x, hx, hc⟩
        · exact Or.inl h'
        · exact Or.inr ⟨x, List.mem_cons_of_mem _ hx, hc⟩

theorem allBlocks_ascii : ∀ b ∈ allBlocks, ∀ c ∈ b.data, c.toNat < 128 := by
  decide!

theorem generate_ends_with_macOS (T : TagMap) :
    gitignoreMacOS.data <:+ (generateGitignore T).data := by
  obtain ⟨hd, hhd⟩ : ∃ hd, selectBlocks T = hd ++ [gitignoreMacOS] := by
    obtain ⟨hd', hhd'⟩ : ∃ hd', selectBlocks T =
        hd' ++ [gitignoreVSCode, gitignoreJetBrains, gitignoreMacOS] := by
      rw [selectBlocks_eq_flagBlocks]
      exact ⟨_, rfl⟩
    exact ⟨hd' ++ [gitignoreVSCode, gitignoreJetBrains], by rw [hhd']; simp⟩
  unfold generateGitignore
  rw [hhd]
  exact Join_snoc_suffix hd gitignoreMacOS _

theorem linesAux_append_newline (x y cur : List Char) :
    linesAux (x ++ Char.ofNat 10 :: y) cur = linesAux x cur ++ linesAux y [] := by
  induction x generalizing cur with
  | nil => simp [linesAux]
  | cons c x ih =>
    by_cases hc : c = Char.ofNat 10
    · subst hc
      rw [List.cons_append, linesAux, linesAux, if_pos rfl, if_pos rfl, ih, List.cons_append]
    · rw [List.cons_append, linesAux, linesAux, if_neg hc, if_neg hc, ih]

/-- A line that is not empty appears in a join of texts as often as in the
texts taken one by one. -/
theorem count_lines_Join (bs : List String) (l : String) (hl : l ≠ "") :
    (lines (Join bs "\n\n")).count l = (bs.map (fun b => (lines b).count l)).sum := by
  have hempty : ("" : String) ≠ l := fun h => hl h.symm
  induction bs with
  | nil =>
    show List.count l [String.mk []] = 0
    exact List.count_eq_zero.2 (by simpa using hl)
  | cons a bs ih =>
    cases bs with
    | nil => simp [Join]
    | cons b bs =>
      have hsplit : (Join (a :: b :: bs) "\n\n").data =
          a.data ++ Char.ofNat 10 :: (Char.ofNat 10 :: (Join (b :: bs) "\n\n").data) := by
        rw [Join_cons_cons]
        simp only [String.data_append, List.append_assoc]
        rfl
      have hcons : linesAux (Char.ofNat 10 :: (Join (b :: bs) "\n\n").data) [] =
          String.mk [] :: lines (Join (b :: bs) "\n\n") := by
        simp [linesAux, lines]
      unfold lines at ih ⊢
      rw [hsplit, linesAux_append_newline, hcons, List.count_append, List.count_cons]
      have h0 : (String.mk [] == l) = false := by simpa using hempty
      simp only [h0, lines, ih, List.map_cons, List.sum_cons]
      simp

theorem sum_indicator (bs : List String) (x : String) :
    (bs.map (fun b => if b = x then 1 else 0)).sum = bs.count x := by
  induction bs with
  | nil => rfl
  | cons a bs ih =>
    by_cases h : a = x
    · simp [h, ih, List.count_cons, Nat.add_comm]
    · simp [h, ih, List.count_cons]

theorem allBlocks_ds_store :
    ∀ b ∈ allBlocks, (lines b).count ".DS_Store" =
      (if b = commonGitignore then 1 else 0) + (if b = gitignoreMacOS then 1 else 0) := by
  decide!

theorem sum_ds_store (bs : List String) (hbs : ∀ b ∈ bs, b ∈ allBlocks) :
    (bs.map (fun b => (lines b).count ".DS_Store")).sum =
      bs.count commonGitignore + bs.count gitignoreMacOS := by
  induction bs with
  | nil => rfl
  | cons a bs ih =>
    have ha := allBlocks_ds_store a (hbs a (List.mem_cons_self _ _))
    have hrest := ih (fun b hb => hbs b (List.mem_cons_of_mem _ hb))
    rw [List.map_cons, List.sum_cons, ha, hrest]
    by_cases h1 : a = commonGitignore <;> by_cases h2 : a = gitignoreMacOS <;>
      simp [h1, h2, List.count_cons] <;> omega

/-- The walk with the callback of `detectProjectTypes` never stops early: it
returns the map folded over all the entries and no error. -/
theorem Walk_walkFn (L : String → String) (walk : List WalkEntry) (m : TagMap) :
    Walk (walkFn L) walk m = (walk.foldl (visit L) m, none) := by
  induction walk generalizing m with
  | nil => rfl
  | cons e walk ih =>
    have hfn : walkFn L m e = (visit L m e, none) := by
      unfold walkFn
      cases herr : e.err with
      | true => simp [visit, herr]
      | false => simp
    rw [Walk, hfn]
    exact ih _

theorem detectProjectTypes_filter (L : String → String) (walk : List WalkEntry) :
    detectProjectTypes L walk = detectProjectTypes L (walk.filter (fun e => !e.err)) := by
  unfold detectProjectTypes
  generalize ([] : TagMap) = m
  induction walk generalizing m with
  | nil => rfl
  | cons e walk ih =>
    cases herr : e.err with
    | true =>
      have hv : visit L m e = m := by simp [visit, herr]
      simp only [List.foldl_cons, List.filter, herr, Bool.not_true, hv]
      exact ih m
    | false =>
      simp only [List.foldl_cons, List.filter, herr, Bool.not_false]
      exact ih _

/-! ## Claims -/

/-- C1: for every tag set, the generated text is the join with two newline
characters of the common block, the language blocks of the tags present in the
canonical order go, python, node, rust, java, php, flutter, the Swift/Xcode
block when swift or xcode is present, and the VS Code, JetBrains and macOS
blocks. -/
theorem generateGitignore_eq_spec (T : TagMap) :
    generateGitignore T = "\n\n".intercalate (specBlocks T) := by
  rw [← Join_eq_intercalate, specBlocks_eq_flagBlocks, ← selectBlocks_eq_flagBlocks]
  rfl

/-- C2, as stated, fails: with no tag detected the common block is followed
by the VS Code block, the line list of the output shows two empty lines between
the last pattern line of the former and the first header line of the latter,
and the layout with one empty line occurs nowhere in the output. -/
theorem one_blank_line_counterexample :
    selectBlocks [] =
      [commonGitignore, gitignoreVSCode, gitignoreJetBrains, gitignoreMacOS] ∧
    ((lines (generateGitignore [])).drop 23).take 5 =
      ["*.iml", "", "", "# =========================================", "# VS CODE"] ∧
    ¬ Contains (generateGitignore []) (commonGitignore ++ "\n" ++ gitignoreVSCode) := by
  refine ⟨rfl, by decide!, ?_⟩
  unfold Contains
  rw [← occurrences_pos_iff]
  have h : occurrences (commonGitignore ++ "\n" ++ gitignoreVSCode).data
      (generateGitignore []).data = 0 := by decide!
  omega

/-- C2, amended: for every tag set and every two consecutive selected blocks
`a` and `b`, the output is the text up to and including `a`, the separator of
two newline characters, and the text from `b` on; `a` ends with a newline that
follows a non-newline character and `b` starts with a header, so that exactly
two empty lines stand between the last line of `a` and the first line of
`b`. -/
theorem blocks_separated_by_two_newlines (T : TagMap) (pre post : List String) (a b : String)
    (h : selectBlocks T = pre ++ a :: b :: post) :
    generateGitignore T =
        Join (pre ++ [a]) "\n\n" ++ "\n\n" ++ Join (b :: post) "\n\n" ∧
      a.data <:+ (Join (pre ++ [a]) "\n\n").data ∧
      b.data <+: (Join (b :: post) "\n\n").data ∧
      (∃ (a₀ : List Char) (x : Char), x ≠ Char.ofNat 10 ∧ a.data = a₀ ++ [x] ++ "\n".data) ∧
      "# ".data <+: b.data := by
  have ha : a ∈ allBlocks := (selectBlocks_sublist T).subset (by rw [h]; simp)
  have hb : b ∈ allBlocks := (selectBlocks_sublist T).subset (by rw [h]; simp)
  refine ⟨?_, Join_snoc_suffix pre a _, Join_cons_starts b post _,
    endsLine_spec _ (allBlocks_shape a ha).2, (startsWith_iff _ _).1 (allBlocks_shape b hb).1⟩
  unfold generateGitignore
  rw [h, ← Join_append (pre ++ [a]) (b :: post) _ (by simp) (by simp)]
  simp

theorem blocks_separated_by_two_newlines_witness :
    selectBlocks [] = [] ++ commonGitignore :: gitignoreVSCode ::
        [gitignoreJetBrains, gitignoreMacOS] ∧
      generateGitignore [] =
        Join ([] ++ [commonGitignore]) "\n\n" ++ "\n\n" ++
          Join (gitignoreVSCode :: [gitignoreJetBrains, gitignoreMacOS]) "\n\n" :=
  ⟨rfl, (blocks_separated_by_two_newlines [] [] [gitignoreJetBrains, gitignoreMacOS]
    commonGitignore gitignoreVSCode rfl).1⟩

/-- C3: for every tag set, the empty one included, the generated text starts
with the common block, ends with the VS Code, JetBrains and macOS blocks in
that order joined by the separator, and each of these four blocks occurs
exactly once in it. -/
theorem common_and_trailing_blocks (T : TagMap) :
    commonGitignore.data <+: (generateGitignore T).data ∧
      (gitignoreVSCode ++ "\n\n" ++ gitignoreJetBrains ++ "\n\n" ++ gitignoreMacOS).data <:+
        (generateGitignore T).data ∧
      OccursOnce (generateGitignore T) commonGitignore ∧
      OccursOnce (generateGitignore T) gitignoreVSCode ∧
      OccursOnce (generateGitignore T) gitignoreJetBrains ∧
      OccursOnce (generateGitignore T) gitignoreMacOS := by
  have hm := mem_selectBlocks T
  refine ⟨?_, ?_, (occursOnce_iff_mem T _ (by simp [allBlocks])).2 hm.1,
    (occursOnce_iff_mem T _ (by simp [allBlocks])).2 hm.2.2.2.2.2.2.2.2.2.1,
    (occursOnce_iff_mem T _ (by simp [allBlocks])).2 hm.2.2.2.2.2.2.2.2.2.2.1,
    (occursOnce_iff_mem T _ (by simp [allBlocks])).2 hm.2.2.2.2.2.2.2.2.2.2.2⟩
  · obtain ⟨tl, htl⟩ : ∃ tl, selectBlocks T = commonGitignore :: tl := by
      rw [selectBlocks_eq_flagBlocks]
      exact ⟨_, rfl⟩
    unfold generateGitignore
    rw [htl]
    exact Join_cons_starts _ _ _
  · obtain ⟨hd, hne, hhd⟩ : ∃ hd, hd ≠ [] ∧ selectBlocks T =
        hd ++ [gitignoreVSCode, gitignoreJetBrains, gitignoreMacOS] := by
      rw [selectBlocks_eq_flagBlocks]
      refine ⟨_, ?_, rfl⟩
      simp
    unfold generateGitignore
    rw [hhd, Join_append hd _ _ hne (by simp)]
    simp only [Join, String.data_append, List.append_assoc]
    exact ⟨(Join hd "\n\n").data ++ "\n\n".data, by simp only [List.append_assoc]⟩

/-- C4: when every tag of `T1` is a tag of `T2`, the blocks selected for `T1`
form a subsequence of the blocks selected for `T2`, and every template block
that occurs in the text generated for `T1` occurs in the text generated for
`T2`. -/
theorem blocks_monotone (T1 T2 : TagMap) (h : ∀ k, T1.get k = true → T2.get k = true) :
    List.Sublist (selectBlocks T1) (selectBlocks T2) ∧
      ∀ b ∈ allBlocks, Contains (generateGitignore T1) b → Contains (generateGitignore T2) b := by
  have hsub : List.Sublist (selectBlocks T1) (selectBlocks T2) := by
    rw [selectBlocks_eq_flagBlocks, selectBlocks_eq_flagBlocks]
    refine flagBlocks_mono _ _ _ _ _ _ _ _ _ _ _ _ _ _ _ _ (h _) (h _) (h _) (h _) (h _) (h _)
      (h _) ?_
    intro hsx
    rw [Bool.or_eq_true] at hsx ⊢
    exact hsx.imp (h _) (h _)
  refine ⟨hsub, fun b hb hc => ?_⟩
  exact (contains_iff_mem T2 b hb).2 (hsub.subset ((contains_iff_mem T1 b hb).1 hc))

theorem blocks_monotone_witness :
    (∀ k, TagMap.get [("go", true)] k = true →
        TagMap.get [("node", true), ("go", true)] k = true) ∧
      List.Sublist (selectBlocks [("go", true)]) (selectBlocks [("node", true), ("go", true)]) := by
  have h : ∀ k, TagMap.get [("go", true)] k = true →
      TagMap.get [("node", true), ("go", true)] k = true := by
    intro k hk
    have hk' : k = "go" := by
      by_contra hne
      have : (k == "go") = false := by simpa using hne
      simp [TagMap.get, List.lookup, this] at hk
    subst hk'
    decide
  exact ⟨h, (blocks_monotone _ _ h).1⟩

/-- C5: adding both swift and xcode to a tag set, adding swift only and adding
xcode only give the same generated text, and the Swift/Xcode block occurs
exactly once in each of the three. -/
theorem swift_xcode_once (T : TagMap) :
    generateGitignore ((T.set "swift" true).set "xcode" true) =
        generateGitignore (T.set "swift" true) ∧
      generateGitignore (T.set "swift" true) = generateGitignore (T.set "xcode" true) ∧
      OccursOnce (generateGitignore ((T.set "swift" true).set "xcode" true))
        gitignoreSwiftXcode ∧
      OccursOnce (generateGitignore (T.set "swift" true)) gitignoreSwiftXcode ∧
      OccursOnce (generateGitignore (T.set "xcode" true)) gitignoreSwiftXcode := by
  have hmem : gitignoreSwiftXcode ∈ allBlocks := by simp [allBlocks]
  refine ⟨?_, ?_, ?_, ?_, ?_⟩
  · unfold generateGitignore
    rw [selectBlocks_eq_flagBlocks, selectBlocks_eq_flagBlocks]
    simp [TagMap.get_set]
  · unfold generateGitignore
    rw [selectBlocks_eq_flagBlocks, selectBlocks_eq_flagBlocks]
    simp [TagMap.get_set]
  · rw [occursOnce_iff_mem _ _ hmem, (mem_selectBlocks _).2.2.2.2.2.2.2.2.1]
    simp [TagMap.get_set]
  · rw [occursOnce_iff_mem _ _ hmem, (mem_selectBlocks _).2.2.2.2.2.2.2.2.1]
    simp [TagMap.get_set]
  · rw [occursOnce_iff_mem _ _ hmem, (mem_selectBlocks _).2.2.2.2.2.2.2.2.1]
    simp [TagMap.get_set]

/-- C6: for every sequence of names of visited entries, the detected map reads
`true` at go iff some lower-cased name is go.mod, at node iff package.json, at
python iff requirements.txt or pyproject.toml, at rust iff cargo.toml, at php
iff composer.json, at flutter iff pubspec.yaml, at java iff build.gradle or
pom.xml, at swift iff project.swift or package.swift, at xcode iff some
lower-cased name ends with .xcodeproj or .xcworkspace; it reads `true` at no
other tag and stores no other key. -/
theorem detectProjectTypes_table (L : String → String) (names : List String) :
    ((detectProjectTypes L (names.map (fun n => WalkEntry.mk n false))).get "go" = true ↔
        ∃ n ∈ names, L n = "go.mod") ∧
    ((detectProjectTypes L (names.map (fun n => WalkEntry.mk n false))).get "node" = true ↔
        ∃ n ∈ names, L n = "package.json") ∧
    ((detectProjectTypes L (names.map (fun n => WalkEntry.mk n false))).get "python" = true ↔
        ∃ n ∈ names, L n = "requirements.txt" ∨ L n = "pyproject.toml") ∧
    ((detectProjectTypes L (names.map (fun n => WalkEntry.mk n false))).get "rust" = true ↔
        ∃ n ∈ names, L n = "cargo.toml") ∧
    ((detectProjectTypes L (names.map (fun n => WalkEntry.mk n false))).get "php" = true ↔
        ∃ n ∈ names, L n = "composer.json") ∧
    ((detectProjectTypes L (names.map (fun n => WalkEntry.mk n false))).get "flutter" = true ↔
        ∃ n ∈ names, L n = "pubspec.yaml") ∧
    ((detectProjectTypes L (names.map (fun n => WalkEntry.mk n false))).get "java" = true ↔
        ∃ n ∈ names, L n = "build.gradle" ∨ L n = "pom.xml") ∧
    ((detectProjectTypes L (names.map (fun n => WalkEntry.mk n false))).get "swift" = true ↔
        ∃ n ∈ names, L n = "project.swift" ∨ L n = "package.swift") ∧
    ((detectProjectTypes L (names.map (fun n => WalkEntry.mk n false))).get "xcode" = true ↔
        ∃ n ∈ names, ".xcodeproj".data <:+ (L n).data ∨ ".xcworkspace".data <:+ (L n).data) ∧
    (∀ k, (detectProjectTypes L (names.map (fun n => WalkEntry.mk n false))).get k = true →
        k ∈ allTags) ∧
    (∀ k v, (k, v) ∈ detectProjectTypes L (names.map (fun n => WalkEntry.mk n false)) →
        v = true ∧ k ∈ allTags) := by
  have key : ∀ k, (detectProjectTypes L (names.map (fun n => WalkEntry.mk n false))).get k
      = true ↔ ∃ n ∈ names, specTag (L n) k := by
    intro k
    rw [get_detectProjectTypes]
    simp
  have hall : ∀ k, (detectProjectTypes L (names.map (fun n => WalkEntry.mk n false))).get k
      = true → k ∈ allTags := by
    intro k hk
    obtain ⟨n, _, hn⟩ := (key k).1 hk
    exact specTag_allTags _ _ hn
  refine ⟨?_, ?_, ?_, ?_, ?_, ?_, ?_, ?_, ?_, hall, ?_⟩
  · rw [key]; simp [specTag]
  · rw [key]; simp [specTag]
  · rw [key]; simp [specTag]
  · rw [key]; simp [specTag]
  · rw [key]; simp [specTag]
  · rw [key]; simp [specTag]
  · rw [key]; simp [specTag]
  · rw [key]; simp [specTag]
  · rw [key]; simp [specTag]
  · intro k v hkv
    have := get_of_mem_detectProjectTypes L _ k v hkv
    exact ⟨this.1, hall k this.2⟩

/-- C7: for every sequence of walk entries, with or without errors, the walk
driven by the callback of `detectProjectTypes` runs through all the entries and
ends without an error; the map it returns reads `true` at a tag exactly when an
entry reported without error sets that tag, wherever that entry stands among
the entries reported with an error. So an entry with an error contributes no
tag, removing it changes nothing, and the result is the result over the
error-free entries alone; for instance an unreadable entry followed by go.mod
is detected as go. -/
theorem detectProjectTypes_skips_errors (L : String → String) (walk : List WalkEntry) :
    Walk (walkFn L) walk [] = (detectProjectTypes L walk, none) ∧
    (∀ k, (detectProjectTypes L walk).get k = true ↔
      ∃ e ∈ walk, e.err = false ∧ specTag (L e.name) k) ∧
    (∀ (m : TagMap) (n : String), visit L m (WalkEntry.mk n true) = m) ∧
    detectProjectTypes L walk =
      detectProjectTypes L (walk.filter (fun e => !e.err)) ∧
    (∀ (pre post : List WalkEntry) (n : String),
      detectProjectTypes L (pre ++ WalkEntry.mk n true :: post) =
        detectProjectTypes L (pre ++ post)) ∧
    detectProjectTypes asciiToLower
        [WalkEntry.mk "." false, WalkEntry.mk "locked" true, WalkEntry.mk "go.mod" false] =
      [("go", true)] := by
  refine ⟨Walk_walkFn L walk [], get_detectProjectTypes L walk, fun m n => by simp [visit],
    detectProjectTypes_filter L walk, ?_, by decide⟩
  intro pre post n
  rw [detectProjectTypes_filter L (pre ++ WalkEntry.mk n true :: post),
    detectProjectTypes_filter L (pre ++ post)]
  simp [List.filter_append, List.filter]

/-- C8: two tag maps that read the same at every key, whatever the order in
which their entries were inserted, give the same generated text. -/
theorem generateGitignore_deterministic (T1 T2 : TagMap) (h : ∀ k, T1.get k = T2.get k) :
    generateGitignore T1 = generateGitignore T2 := by
  unfold generateGitignore
  rw [selectBlocks_congr T1 T2 h]

theorem generateGitignore_deterministic_witness :
    (∀ k, TagMap.get [("go", true), ("node", true)] k =
        TagMap.get [("node", true), ("rust", false), ("go", true)] k) ∧
      generateGitignore [("go", true), ("node", true)] =
        generateGitignore [("node", true), ("rust", false), ("go", true)] := by
  have h : ∀ k, TagMap.get [("go", true), ("node", true)] k =
      TagMap.get [("node", true), ("rust", false), ("go", true)] k := by
    intro k
    by_cases h1 : k = "go"
    · subst h1; decide
    · by_cases h2 : k = "node"
      · subst h2; decide
      · by_cases h3 : k = "rust"
        · subst h3; decide
        · have e1 : (k == "go") = false := by simpa using h1
          have e2 : (k == "node") = false := by simpa using h2
          have e3 : (k == "rust") = false := by simpa using h3
          simp [TagMap.get, List.lookup, e1, e2, e3]
  exact ⟨h, generateGitignore_deterministic _ _ h⟩

/-- C9: for every tag set, each language block occurs in the generated text
iff its tag is in the set, the Swift/Xcode block iff swift or xcode is; and a
walk that visits the root and the single entry go.mod (lower-casing leaving
both names as they are) is detected as exactly the set holding go, whose text
contains the common block and the Go block and neither the Python block nor the
Node block. -/
theorem block_occurs_iff_tag (T : TagMap) (L : String → String)
    (hdot : L "." = ".") (hgo : L "go.mod" = "go.mod") :
    (Contains (generateGitignore T) gitignoreGo ↔ T.get "go" = true) ∧
    (Contains (generateGitignore T) gitignorePython ↔ T.get "python" = true) ∧
    (Contains (generateGitignore T) gitignoreNode ↔ T.get "node" = true) ∧
    (Contains (generateGitignore T) gitignoreRust ↔ T.get "rust" = true) ∧
    (Contains (generateGitignore T) gitignoreJava ↔ T.get "java" = true) ∧
    (Contains (generateGitignore T) gitignorePHP ↔ T.get "php" = true) ∧
    (Contains (generateGitignore T) gitignoreFlutter ↔ T.get "flutter" = true) ∧
    (Contains (generateGitignore T) gitignoreSwiftXcode ↔
      (T.get "swift" = true ∨ T.get "xcode" = true)) ∧
    detectProjectTypes L [WalkEntry.mk "." false, WalkEntry.mk "go.mod" false] =
      [("go", true)] ∧
    detectProjectTypes L [WalkEntry.mk "go.mod" false] = [("go", true)] ∧
    Contains (generateGitignore (detectProjectTypes L
      [WalkEntry.mk "." false, WalkEntry.mk "go.mod" false])) commonGitignore ∧
    Contains (generateGitignore (detectProjectTypes L
      [WalkEntry.mk "." false, WalkEntry.mk "go.mod" false])) gitignoreGo ∧
    ¬ Contains (generateGitignore (detectProjectTypes L
      [WalkEntry.mk "." false, WalkEntry.mk "go.mod" false])) gitignorePython ∧
    ¬ Contains (generateGitignore (detectProjectTypes L
      [WalkEntry.mk "." false, WalkEntry.mk "go.mod" false])) gitignoreNode := by
  have hall : ∀ T : TagMap,
      (Contains (generateGitignore T) commonGitignore) ∧
      (Contains (generateGitignore T) gitignoreGo ↔ T.get "go" = true) ∧
      (Contains (generateGitignore T) gitignorePython ↔ T.get "python" = true) ∧
      (Contains (generateGitignore T) gitignoreNode ↔ T.get "node" = true) ∧
      (Contains (generateGitignore T) gitignoreRust ↔ T.get "rust" = true) ∧
      (Contains (generateGitignore T) gitignoreJava ↔ T.get "java" = true) ∧
      (Contains (generateGitignore T) gitignorePHP ↔ T.get "php" = true) ∧
      (Contains (generateGitignore T) gitignoreFlutter ↔ T.get "flutter" = true) ∧
      (Contains (generateGitignore T) gitignoreSwiftXcode ↔
        (T.get "swift" = true ∨ T.get "xcode" = true)) := by
    intro T
    have hm := mem_selectBlocks T
    refine ⟨?_, ?_, ?_, ?_, ?_, ?_, ?_, ?_, ?_⟩
    · exact (contains_iff_mem T _ (by simp [allBlocks])).2 hm.1
    · rw [contains_iff_mem T _ (by simp [allBlocks])]; exact hm.2.1
    · rw [contains_iff_mem T _ (by simp [allBlocks])]; exact hm.2.2.1
    · rw [contains_iff_mem T _ (by simp [allBlocks])]; exact hm.2.2.2.1
    · rw [contains_iff_mem T _ (by simp [allBlocks])]; exact hm.2.2.2.2.1
    · rw [contains_iff_mem T _ (by simp [allBlocks])]; exact hm.2.2.2.2.2.1
    · rw [contains_iff_mem T _ (by simp [allBlocks])]; exact hm.2.2.2.2.2.2.1
    · rw [contains_iff_mem T _ (by simp [allBlocks])]; exact hm.2.2.2.2.2.2.2.1
    · rw [contains_iff_mem T _ (by simp [allBlocks])]; exact hm.2.2.2.2.2.2.2.2.1
  have h1 : HasSuffix "." ".xcodeproj" = false := by decide
  have h2 : HasSuffix "." ".xcworkspace" = false := by decide
  have h3 : HasSuffix "go.mod" ".xcodeproj" = false := by decide
  have h4 : HasSuffix "go.mod" ".xcworkspace" = false := by decide
  have hd : detectProjectTypes L [WalkEntry.mk "." false, WalkEntry.mk "go.mod" false] =
      [("go", true)] := by
    simp [detectProjectTypes, visit, hdot, hgo, h1, h2, h3, h4, TagMap.set]
  have hd' : detectProjectTypes L [WalkEntry.mk "go.mod" false] = [("go", true)] := by
    simp [detectProjectTypes, visit, hgo, h3, h4, TagMap.set]
  have hT := hall T
  have hG := hall [("go", true)]
  rw [hd]
  refine ⟨hT.2.1, hT.2.2.1, hT.2.2.2.1, hT.2.2.2.2.1, hT.2.2.2.2.2.1, hT.2.2.2.2.2.2.1,
    hT.2.2.2.2.2.2.2.1, hT.2.2.2.2.2.2.2.2, rfl, hd', hG.1, hG.2.1.2 (by decide), ?_, ?_⟩
  · rw [hG.2.2.1]; decide
  · rw [hG.2.2.2.1]; decide

theorem block_occurs_iff_tag_witness :
    asciiToLower "." = "." ∧ asciiToLower "go.mod" = "go.mod" ∧
      detectProjectTypes asciiToLower [WalkEntry.mk "." false, WalkEntry.mk "go.mod" false] =
        [("go", true)] :=
  ⟨by decide, by decide,
    (block_occurs_iff_tag [] asciiToLower (by decide) (by decide)).2.2.2.2.2.2.2.2.1⟩

/-- C10: for every walk in which some error-free entry has the lower-cased
name package.json, some has requirements.txt, and every other error-free entry
sets no tag, in whatever order they are visited, the detected set holds exactly
node and python; the text generated for it is the join of the common, Python,
Node, VS Code, JetBrains and macOS blocks, the Python block and the Node block
each occur exactly once in it, and the Python block stands before the Node
block. -/
theorem node_python_scenario (L : String → String) (walk : List WalkEntry)
    (hnode : ∃ e ∈ walk, e.err = false ∧ L e.name = "package.json")
    (hpy : ∃ e ∈ walk, e.err = false ∧ L e.name = "requirements.txt")
    (honly : ∀ e ∈ walk, e.err = false →
      L e.name = "package.json" ∨ L e.name = "requirements.txt" ∨
        ∀ k, ¬ specTag (L e.name) k) :
    (∀ k, (detectProjectTypes L walk).get k = true ↔ (k = "node" ∨ k = "python")) ∧
    generateGitignore (detectProjectTypes L walk) =
      Join [commonGitignore, gitignorePython, gitignoreNode, gitignoreVSCode,
        gitignoreJetBrains, gitignoreMacOS] "\n\n" ∧
    OccursOnce (generateGitignore (detectProjectTypes L walk)) gitignorePython ∧
    OccursOnce (generateGitignore (detectProjectTypes L walk)) gitignoreNode ∧
    ∃ u v w : List Char, (generateGitignore (detectProjectTypes L walk)).data =
      u ++ gitignorePython.data ++ v ++ gitignoreNode.data ++ w := by
  have key : ∀ k, (detectProjectTypes L walk).get k = true ↔ (k = "node" ∨ k = "python") := by
    intro k
    rw [get_detectProjectTypes]
    constructor
    · rintro ⟨e, he, herr, htag⟩
      rcases honly e he herr with h | h | h
      · rw [h, specTag_package_json] at htag
        exact Or.inl htag
      · rw [h, specTag_requirements_txt] at htag
        exact Or.inr htag
      · exact absurd htag (h k)
    · rintro (rfl | rfl)
      · obtain ⟨e, he, herr, hname⟩ := hnode
        exact ⟨e, he, herr, by rw [hname, specTag_package_json]⟩
      · obtain ⟨e, he, herr, hname⟩ := hpy
        exact ⟨e, he, herr, by rw [hname, specTag_requirements_txt]⟩
  have hsel : selectBlocks (detectProjectTypes L walk) =
      [commonGitignore, gitignorePython, gitignoreNode, gitignoreVSCode,
        gitignoreJetBrains, gitignoreMacOS] := by
    rw [selectBlocks_eq_flagBlocks]
    have hgo := get_eq_false_of_not _ "go" (by rw [key]; decide)
    have hpython := (key "python").2 (Or.inr rfl)
    have hnode' := (key "node").2 (Or.inl rfl)
    have hrust := get_eq_false_of_not _ "rust" (by rw [key]; decide)
    have hjava := get_eq_false_of_not _ "java" (by rw [key]; decide)
    have hphp := get_eq_false_of_not _ "php" (by rw [key]; decide)
    have hflutter := get_eq_false_of_not _ "flutter" (by rw [key]; decide)
    have hswift := get_eq_false_of_not _ "swift" (by rw [key]; decide)
    have hxcode := get_eq_false_of_not _ "xcode" (by rw [key]; decide)
    rw [hgo, hpython, hnode', hrust, hjava, hphp, hflutter, hswift, hxcode]
    rfl
  have hgen : generateGitignore (detectProjectTypes L walk) =
      Join [commonGitignore, gitignorePython, gitignoreNode, gitignoreVSCode,
        gitignoreJetBrains, gitignoreMacOS] "\n\n" := by
    unfold generateGitignore
    rw [hsel]
  refine ⟨key, hgen, ?_, ?_, ?_⟩
  · rw [occursOnce_iff_mem _ _ (by simp [allBlocks]), hsel]
    simp
  · rw [occursOnce_iff_mem _ _ (by simp [allBlocks]), hsel]
    simp
  · rw [hgen]
    refine ⟨commonGitignore.data ++ "\n\n".data, "\n\n".data,
      "\n\n".data ++ (Join [gitignoreVSCode, gitignoreJetBrains, gitignoreMacOS] "\n\n").data,
      ?_⟩
    simp only [Join, String.data_append, List.append_assoc]

theorem node_python_scenario_witness :
    generateGitignore (detectProjectTypes asciiToLower
        [WalkEntry.mk "." false, WalkEntry.mk "package.json" false,
          WalkEntry.mk "requirements.txt" false]) =
      Join [commonGitignore, gitignorePython, gitignoreNode, gitignoreVSCode,
        gitignoreJetBrains, gitignoreMacOS] "\n\n" := by
  have h0 : asciiToLower "." = "." := by decide
  have h1 : asciiToLower "package.json" = "package.json" := by decide
  have h2 : asciiToLower "requirements.txt" = "requirements.txt" := by decide
  refine (node_python_scenario asciiToLower _ ?_ ?_ ?_).2.1
  · exact ⟨WalkEntry.mk "package.json" false, by simp, rfl, h1⟩
  · exact ⟨WalkEntry.mk "requirements.txt" false, by simp, rfl, h2⟩
  · intro e he _
    simp only [List.mem_cons, List.mem_singleton, List.not_mem_nil, or_false] at he
    rcases he with rfl | rfl | rfl
    · right; right
      intro k
      rw [h0]
      exact specTag_dot k
    · left; exact h1
    · right; left; exact h2

/-- C11: detection looks at the lower-cased name alone, for directories as
for files: when lower-casing a lower-cased name changes nothing, an entry sets
the tags its lower-cased name sets, two names with the same lower-casing set
the same tags, and the directory flag of the entry plays no part. In
particular the walk over the root, the directory MyApp.xcodeproj and the file
Package.swift is detected as exactly xcode and swift, and the generated text
contains the Swift/Xcode block exactly once. -/
theorem detection_case_insensitive (L : String → String) (hidem : ∀ s, L (L s) = L s)
    (hdot : L "." = ".") (hx : L "MyApp.xcodeproj" = "myapp.xcodeproj")
    (hs : L "Package.swift" = "package.swift") :
    (∀ (m : TagMap) (n : String),
      visit L m (WalkEntry.mk n false) = visit L m (WalkEntry.mk (L n) false)) ∧
    (∀ (m : TagMap) (n n' : String), L n = L n' →
      visit L m (WalkEntry.mk n false) = visit L m (WalkEntry.mk n' false)) ∧
    (∀ (m : TagMap) (n : String),
      visit L m (WalkEntry.ofInfo (FileInfo.mk n true)) =
        visit L m (WalkEntry.ofInfo (FileInfo.mk n false))) ∧
    detectProjectTypes L
        [WalkEntry.ofInfo (FileInfo.mk "." true),
          WalkEntry.ofInfo (FileInfo.mk "MyApp.xcodeproj" true),
          WalkEntry.ofInfo (FileInfo.mk "Package.swift" false)] =
      [("swift", true), ("xcode", true)] ∧
    (∀ k, (detectProjectTypes L
        [WalkEntry.ofInfo (FileInfo.mk "." true),
          WalkEntry.ofInfo (FileInfo.mk "MyApp.xcodeproj" true),
          WalkEntry.ofInfo (FileInfo.mk "Package.swift" false)]).get k = true ↔
      (k = "xcode" ∨ k = "swift")) ∧
    OccursOnce (generateGitignore (detectProjectTypes L
        [WalkEntry.ofInfo (FileInfo.mk "." true),
          WalkEntry.ofInfo (FileInfo.mk "MyApp.xcodeproj" true),
          WalkEntry.ofInfo (FileInfo.mk "Package.swift" false)])) gitignoreSwiftXcode := by
  have h1 : HasSuffix "." ".xcodeproj" = false := by decide
  have h2 : HasSuffix "." ".xcworkspace" = false := by decide
  have h3 : HasSuffix "myapp.xcodeproj" ".xcodeproj" = true := by decide
  have h4 : HasSuffix "package.swift" ".xcodeproj" = false := by decide
  have h5 : HasSuffix "package.swift" ".xcworkspace" = false := by decide
  have hd : detectProjectTypes L
      [WalkEntry.ofInfo (FileInfo.mk "." true),
        WalkEntry.ofInfo (FileInfo.mk "MyApp.xcodeproj" true),
        WalkEntry.ofInfo (FileInfo.mk "Package.swift" false)] =
      [("swift", true), ("xcode", true)] := by
    simp [detectProjectTypes, WalkEntry.ofInfo, visit, hdot, hx, hs, h1, h2, h3, h4, h5,
      TagMap.set]
  rw [hd]
  refine ⟨fun m n => visit_congr L m n (L n) (hidem n).symm,
    fun m n n' h => visit_congr L m n n' h, fun m n => rfl, rfl, ?_, ?_⟩
  · intro k
    by_cases hk1 : k = "swift"
    · subst hk1; decide
    · by_cases hk2 : k = "xcode"
      · subst hk2; decide
      · have e1 : (k == "swift") = false := by simpa using hk1
        have e2 : (k == "xcode") = false := by simpa using hk2
        simp [TagMap.get, List.lookup, e1, e2, hk1, hk2]
  · rw [occursOnce_iff_mem _ _ (by simp [allBlocks]),
      (mem_selectBlocks _).2.2.2.2.2.2.2.2.1]
    exact Or.inl (by decide)

theorem detection_case_insensitive_witness :
    detectProjectTypes asciiToLower
        [WalkEntry.ofInfo (FileInfo.mk "." true),
          WalkEntry.ofInfo (FileInfo.mk "MyApp.xcodeproj" true),
          WalkEntry.ofInfo (FileInfo.mk "Package.swift" false)] =
      [("swift", true), ("xcode", true)] :=
  (detection_case_insensitive asciiToLower asciiToLower_idem (by decide) (by decide)
    (by decide)).2.2.2.1

/-- C12: for every walk none of whose error-free entries sets a tag, an empty
directory in particular, the detected map is empty; the text generated for the
empty map is the common block, the VS Code block, the JetBrains block and the
macOS block with two newline characters between neighbours, and no language
block occurs in it. -/
theorem no_marker_scenario (L : String → String) (walk : List WalkEntry)
    (h : ∀ e ∈ walk, e.err = false → ∀ k, ¬ specTag (L e.name) k) :
    detectProjectTypes L walk = [] ∧
    generateGitignore (detectProjectTypes L walk) =
      commonGitignore ++ "\n\n" ++ gitignoreVSCode ++ "\n\n" ++ gitignoreJetBrains ++
        "\n\n" ++ gitignoreMacOS ∧
    generateGitignore [] =
      commonGitignore ++ "\n\n" ++ gitignoreVSCode ++ "\n\n" ++ gitignoreJetBrains ++
        "\n\n" ++ gitignoreMacOS ∧
    selectBlocks [] =
      [commonGitignore, gitignoreVSCode, gitignoreJetBrains, gitignoreMacOS] ∧
    (∀ b ∈ [gitignoreGo, gitignorePython, gitignoreNode, gitignoreRust, gitignoreJava,
        gitignorePHP, gitignoreFlutter, gitignoreSwiftXcode],
      ¬ Contains (generateGitignore []) b) := by
  have hgen : generateGitignore [] =
      commonGitignore ++ "\n\n" ++ gitignoreVSCode ++ "\n\n" ++ gitignoreJetBrains ++
        "\n\n" ++ gitignoreMacOS := by
    show Join [commonGitignore, gitignoreVSCode, gitignoreJetBrains, gitignoreMacOS] "\n\n" = _
    simp only [Join, String.append_assoc]
  rw [detectProjectTypes_of_no_tag L walk h]
  refine ⟨rfl, hgen, hgen, rfl, ?_⟩
  intro b hb
  have hm := mem_selectBlocks []
  have hget : ∀ k, TagMap.get [] k = true ↔ False := by
    intro k
    simp [TagMap.get_nil]
  simp only [hget, or_self] at hm
  have hball : b ∈ allBlocks := by
    simp only [List.mem_cons, List.mem_singleton, List.not_mem_nil, or_false] at hb
    rcases hb with rfl | rfl | rfl | rfl | rfl | rfl | rfl | rfl <;> simp [allBlocks]
  rw [contains_iff_mem [] b hball]
  simp only [List.mem_cons, List.mem_singleton, List.not_mem_nil, or_false] at hb
  rcases hb with rfl | rfl | rfl | rfl | rfl | rfl | rfl | rfl
  · exact hm.2.1.1
  · exact hm.2.2.1.1
  · exact hm.2.2.2.1.1
  · exact hm.2.2.2.2.1.1
  · exact hm.2.2.2.2.2.1.1
  · exact hm.2.2.2.2.2.2.1.1
  · exact hm.2.2.2.2.2.2.2.1.1
  · exact hm.2.2.2.2.2.2.2.2.1.1

theorem no_marker_scenario_witness :
    detectProjectTypes asciiToLower [WalkEntry.mk "." false] = [] := by
  have h0 : asciiToLower "." = "." := by decide
  refine (no_marker_scenario asciiToLower [WalkEntry.mk "." false] ?_).1
  intro e he _ k
  rw [List.mem_singleton] at he
  subst he
  rw [h0]
  exact specTag_dot k

/-- C13: when `.gitignore` exists with content `C` and both the rename and
the write succeed, after the run `.gitignore.bak` holds exactly `C`,
`.gitignore` holds exactly the text generated for the detected tags, and every
other path is as it was. -/
theorem backup_then_write (L : String → String) (walk : List WalkEntry) (fs : FS)
    (C : String) (h : fs ".gitignore" = some C) :
    (main L walk none none fs).fs ".gitignore.bak" = some C ∧
    (main L walk none none fs).fs ".gitignore" =
      some (generateGitignore (detectProjectTypes L walk)) ∧
    (∀ p, p ≠ ".gitignore" → p ≠ ".gitignore.bak" →
      (main L walk none none fs).fs p = fs p) ∧
    (main L walk none none fs).stdout = [msgBackedUp, msgGenerated] := by
  rw [main_of_renamed L walk none fs C h]
  refine ⟨by simp, by simp, ?_, rfl⟩
  intro p h1 h2
  simp [h1, h2]

theorem backup_then_write_witness :
    (main asciiToLower [WalkEntry.mk "." false, WalkEntry.mk ".gitignore" false] none none
        (fun p => if p = ".gitignore" then some "OLD" else none)).fs ".gitignore.bak" =
      some "OLD" :=
  (backup_then_write asciiToLower [WalkEntry.mk "." false, WalkEntry.mk ".gitignore" false]
    (fun p => if p = ".gitignore" then some "OLD" else none) "OLD" (by decide)).1

/-- C14: when `.gitignore` exists and the rename to `.gitignore.bak` fails,
the run goes on to the write: when the write succeeds `.gitignore` holds the
newly generated text, every other path is as it was and the success line is
printed; when the write fails too, its error line is printed. -/
theorem rename_failure_not_fatal (L : String → String) (walk : List WalkEntry) (fs : FS)
    (C e : String) (h : fs ".gitignore" = some C) :
    (main L walk (some e) none fs).fs ".gitignore" =
      some (generateGitignore (detectProjectTypes L walk)) ∧
    (∀ p, p ≠ ".gitignore" → (main L walk (some e) none fs).fs p = fs p) ∧
    (main L walk (some e) none fs).stdout = [msgBackedUp, msgGenerated] ∧
    (∀ f : WriteFault, (main L walk (some e) (some f) fs).stdout =
      [msgBackedUp, msgWriteFailed ++ " " ++ f.err]) := by
  refine ⟨?_, ?_, ?_, ?_⟩
  · rw [main_of_rename_failed L walk e none fs C h]
    simp
  · intro p hp
    rw [main_of_rename_failed L walk e none fs C h]
    simp [hp]
  · rw [main_of_rename_failed L walk e none fs C h]
  · intro f
    rw [main_of_rename_failed L walk e (some f) fs C h]

theorem rename_failure_not_fatal_witness :
    (main asciiToLower [WalkEntry.mk "." false, WalkEntry.mk ".gitignore" false]
        (some "permission denied") none
        (fun p => if p = ".gitignore" then some "OLD" else none)).stdout =
      [msgBackedUp, msgGenerated] :=
  (rename_failure_not_fatal asciiToLower
    [WalkEntry.mk "." false, WalkEntry.mk ".gitignore" false]
    (fun p => if p = ".gitignore" then some "OLD" else none) "OLD" "permission denied"
    (by decide)).2.2.1

/-- C15, as stated, fails at its last part. With `.gitignore` holding `OLD`
and the rename failing, a write that fails after the file was opened and before
any character was written leaves `.gitignore` empty: the old content is gone;
a write that fails after ten characters leaves the first ten characters of the
new text at the target path. In both runs the error is the last line printed
and the success line is not printed. -/
theorem write_failure_counterexample :
    (main asciiToLower [WalkEntry.mk "." false] (some "busy")
        (some (WriteFault.mk "no space left on device" (some 0)))
        (fun p => if p = ".gitignore" then some "OLD" else none)).fs ".gitignore" =
      some "" ∧
    (main asciiToLower [WalkEntry.mk "." false] (some "busy")
        (some (WriteFault.mk "no space left on device" (some 10)))
        (fun p => if p = ".gitignore" then some "OLD" else none)).fs ".gitignore" =
      some "# ========" ∧
    (main asciiToLower [WalkEntry.mk "." false] (some "busy")
        (some (WriteFault.mk "no space left on device" (some 10)))
        (fun p => if p = ".gitignore" then some "OLD" else none)).stdout =
      [msgBackedUp, msgWriteFailed ++ " " ++ "no space left on device"] := by
  have h0 := main_of_rename_failed asciiToLower [WalkEntry.mk "." false] "busy"
    (some (WriteFault.mk "no space left on device" (some 0)))
    (fun p => if p = ".gitignore" then some "OLD" else none) "OLD" (by decide)
  have h10 := main_of_rename_failed asciiToLower [WalkEntry.mk "." false] "busy"
    (some (WriteFault.mk "no space left on device" (some 10)))
    (fun p => if p = ".gitignore" then some "OLD" else none) "OLD" (by decide)
  have hd : detectProjectTypes asciiToLower [WalkEntry.mk "." false] = [] := by decide
  have ht : (generateGitignore []).data.take 10 = "# ========".data := by decide!
  refine ⟨?_, ?_, ?_⟩
  · rw [h0]
    simp [WriteFile]
  · rw [h10, hd]
    simp only [WriteFile, if_true, ht]
  · rw [h10]

/-- C15, amended: when the write of `.gitignore` fails, whatever the rename
did, the run prints the failure line carrying the error as its last line, does
not print the success line and writes nothing further: every path other than
`.gitignore` is as in the run whose write succeeds, hence as the backup step
left it; `.gitignore` itself is as the backup step left it, absent or with its
previous content, when the open failed, and otherwise holds the characters of
the new text written before the failure, a start of the new text that may be
empty. -/
theorem write_failure_reported (L : String → String) (walk : List WalkEntry) (fs : FS)
    (renameFault : Option String) (f : WriteFault) :
    (main L walk renameFault (some f) fs).stdout.getLast? =
      some (msgWriteFailed ++ " " ++ f.err) ∧
    msgGenerated ∉ (main L walk renameFault (some f) fs).stdout ∧
    (∀ p, p ≠ ".gitignore" →
      (main L walk renameFault (some f) fs).fs p = (main L walk renameFault none fs).fs p) ∧
    (∀ p, p ≠ ".gitignore" → p ≠ ".gitignore.bak" →
      (main L walk renameFault (some f) fs).fs p = fs p) ∧
    (f.progress = none →
      ((main L walk renameFault (some f) fs).fs ".gitignore" = none ∨
        (main L walk renameFault (some f) fs).fs ".gitignore" = fs ".gitignore")) ∧
    (f.progress = none → (fs ".gitignore" = none ∨ renameFault ≠ none) →
      ∀ p, (main L walk renameFault (some f) fs).fs p = fs p) ∧
    (∀ n, f.progress = some n →
      (main L walk renameFault (some f) fs).fs ".gitignore" =
        some (String.mk ((generateGitignore (detectProjectTypes L walk)).data.take n)) ∧
      (generateGitignore (detectProjectTypes L walk)).data.take n <+:
        (generateGitignore (detectProjectTypes L walk)).data) := by
  have hne := msgGenerated_ne_failed f.err
  have hne' := msgGenerated_ne_backedUp
  have htake : ∀ n, (generateGitignore (detectProjectTypes L walk)).data.take n <+:
      (generateGitignore (detectProjectTypes L walk)).data := fun n => List.take_prefix _ _
  cases hfs : fs ".gitignore" with
  | none =>
    rw [main_of_absent L walk renameFault (some f) fs hfs,
      main_of_absent L walk renameFault none fs hfs]
    simp only [WriteFile_fault_fs]
    rcases f with ⟨err, _ | n⟩
    · simp [hne, hfs]
      intro p hp
      simp [hp]
    · simp [hne, hfs, htake]
      constructor
      · intro p hp
        simp [hp]
      · intro p hp _
        simp [hp]
  | some C =>
    cases renameFault with
    | none =>
      rw [main_of_renamed L walk (some f) fs C hfs, main_of_renamed L walk none fs C hfs]
      simp only [WriteFile_fault_fs]
      rcases f with ⟨err, _ | n⟩
      · simp [hne, hne']
        constructor
        · intro p hp
          simp [hp]
        · intro p hp hp'
          simp [hp, hp']
      · simp [hne, hne', htake]
        constructor
        · intro p hp
          simp [hp]
        · intro p hp hp'
          simp [hp, hp']
    | some e' =>
      rw [main_of_rename_failed L walk e' (some f) fs C hfs,
        main_of_rename_failed L walk e' none fs C hfs]
      simp only [WriteFile_fault_fs]
      rcases f with ⟨err, _ | n⟩
      · simp [hne, hne', hfs]
        intro p hp
        simp [hp]
      · simp [hne, hne', hfs, htake]
        constructor
        · intro p hp
          simp [hp]
        · intro p hp _
          simp [hp]

/-- C16: for every tag set the generated text is ASCII, is not empty and ends
with a newline character. -/
theorem generated_text_ascii (T : TagMap) :
    (∀ c ∈ (generateGitignore T).data, c.toNat < 128) ∧
    (generateGitignore T).data ≠ [] ∧
    (generateGitignore T).data.getLast? = some (Char.ofNat 10) := by
  have hlast : (generateGitignore T).data.getLast? = some (Char.ofNat 10) := by
    obtain ⟨t, ht⟩ := generate_ends_with_macOS T
    rw [← ht, List.getLast?_append]
    have : gitignoreMacOS.data.getLast? = some (Char.ofNat 10) := by decide
    rw [this]
    rfl
  refine ⟨?_, ?_, hlast⟩
  · intro c hc
    unfold generateGitignore at hc
    rcases mem_Join_data _ _ c hc with h | ⟨b, hb, hcb⟩
    · have hsep : ∀ c ∈ "\n\n".data, c.toNat < 128 := by decide
      exact hsep c h
    · exact allBlocks_ascii b ((selectBlocks_sublist T).subset hb) c hcb
  · intro hnil
    rw [hnil] at hlast
    simp at hlast

/-- C17: blocks are concatenated as they are, without removing repeated
entries: for every tag set the line `.DS_Store` appears in the generated text
exactly twice, once from the common block and once from the macOS block, and
for the tags go and php the line `vendor/` appears twice. -/
theorem entries_not_deduplicated (T : TagMap) :
    2 ≤ (lines (generateGitignore T)).count ".DS_Store" ∧
    (lines (generateGitignore T)).count ".DS_Store" = 2 ∧
    (lines commonGitignore).count ".DS_Store" = 1 ∧
    (lines gitignoreMacOS).count ".DS_Store" = 1 ∧
    (lines (generateGitignore [("go", true), ("php", true)])).count "vendor/" = 2 ∧
    (lines gitignoreGo).count "vendor/" = 1 ∧
    (lines gitignorePHP).count "vendor/" = 1 := by
  have hcount : (lines (generateGitignore T)).count ".DS_Store" = 2 := by
    unfold generateGitignore
    rw [count_lines_Join _ _ (by decide),
      sum_ds_store _ (fun b hb => (selectBlocks_sublist T).subset hb),
      List.count_eq_of_nodup (selectBlocks_nodup T),
      List.count_eq_of_nodup (selectBlocks_nodup T)]
    have hm := mem_selectBlocks T
    simp [hm.1, hm.2.2.2.2.2.2.2.2.2.2.2]
  refine ⟨by omega, hcount, by decide!, by decide!, by decide!, by decide!, by decide!⟩

/-- C18: the tags detected for one sequence of entries followed by another are
the tags detected for the one or for the other; so the result reads the same
when the two are swapped, when a sequence is repeated, and under any
reordering of the entries, and entries that are added never remove a tag. -/
theorem detection_is_union (L : String → String) (a b : List WalkEntry) :
    (∀ k, (detectProjectTypes L (a ++ b)).get k =
      ((detectProjectTypes L a).get k || (detectProjectTypes L b).get k)) ∧
    (∀ k, (detectProjectTypes L (a ++ b)).get k = (detectProjectTypes L (b ++ a)).get k) ∧
    (∀ k, (detectProjectTypes L (a ++ a)).get k = (detectProjectTypes L a).get k) ∧
    (∀ a' : List WalkEntry, a.Perm a' →
      ∀ k, (detectProjectTypes L a').get k = (detectProjectTypes L a).get k) ∧
    (∀ k, (detectProjectTypes L a).get k = true →
      (detectProjectTypes L (a ++ b)).get k = true) := by
  have hunion : ∀ (x y : List WalkEntry) (k : String),
      (detectProjectTypes L (x ++ y)).get k =
        ((detectProjectTypes L x).get k || (detectProjectTypes L y).get k) := by
    intro x y k
    rw [Bool.eq_iff_iff, Bool.or_eq_true, get_detectProjectTypes, get_detectProjectTypes,
      get_detectProjectTypes]
    simp only [List.mem_append]
    constructor
    · rintro ⟨e, he | he, h⟩
      · exact Or.inl ⟨e, he, h⟩
      · exact Or.inr ⟨e, he, h⟩
    · rintro (⟨e, he, h⟩ | ⟨e, he, h⟩)
      · exact ⟨e, Or.inl he, h⟩
      · exact ⟨e, Or.inr he, h⟩
  refine ⟨hunion a b, ?_, ?_, ?_, ?_⟩
  · intro k
    rw [hunion a b, hunion b a, Bool.or_comm]
  · intro k
    rw [hunion a a, Bool.or_self]
  · intro a' hperm k
    rw [Bool.eq_iff_iff, get_detectProjectTypes, get_detectProjectTypes]
    constructor
    · rintro ⟨e, he, h⟩
      exact ⟨e, hperm.mem_iff.2 he, h⟩
    · rintro ⟨e, he, h⟩
      exact ⟨e, hperm.mem_iff.1 he, h⟩
  · intro k hk
    rw [hunion a b, hk, Bool.true_or]

/-- C19, as stated, fails. First part: with the same content `x` in
`.gitignore` and in `.gitignore.bak`, after a successful run the old backup
content `x` is still stored, at `.gitignore.bak`. Second part: starting from a
`.gitignore` that already holds the text the tool generates, after two
successful runs `.gitignore.bak` holds the first run's text and that text is
the starting content. -/
theorem backup_content_counterexample :
    (∃ p, (main asciiToLower [WalkEntry.mk "." false] none none
        (fun p => if p = ".gitignore" then some "x"
          else if p = ".gitignore.bak" then some "x" else none)).fs p = some "x") ∧
    (main asciiToLower [WalkEntry.mk "." false] none none
        (main asciiToLower [WalkEntry.mk "." false] none none
          (fun p => if p = ".gitignore" then some (generateGitignore []) else none)).fs).fs
        ".gitignore.bak" =
      some (generateGitignore (detectProjectTypes asciiToLower [WalkEntry.mk "." false])) ∧
    (main asciiToLower [WalkEntry.mk "." false] none none
        (main asciiToLower [WalkEntry.mk "." false] none none
          (fun p => if p = ".gitignore" then some (generateGitignore []) else none)).fs).fs
        ".gitignore.bak" =
      some (generateGitignore []) := by
  have hd : detectProjectTypes asciiToLower [WalkEntry.mk "." false] = [] := by decide
  have r1 := main_of_renamed asciiToLower [WalkEntry.mk "." false] none
    (fun p => if p = ".gitignore" then some (generateGitignore []) else none)
    (generateGitignore []) (by simp)
  have h1 : (main asciiToLower [WalkEntry.mk "." false] none none
      (fun p => if p = ".gitignore" then some (generateGitignore []) else none)).fs
      ".gitignore" = some (generateGitignore []) := by
    rw [r1, hd]; simp
  have r2 := main_of_renamed asciiToLower [WalkEntry.mk "." false] none _ _ h1
  refine ⟨⟨".gitignore.bak", ?_⟩, ?_, ?_⟩
  · rw [main_of_renamed asciiToLower [WalkEntry.mk "." false] none
      (fun p => if p = ".gitignore" then some "x"
        else if p = ".gitignore.bak" then some "x" else none) "x" (by decide)]
    simp
  · rw [r2, hd]; simp
  · rw [r2]; simp

/-- C19, amended: when `.gitignore.bak` holds `B` and `.gitignore` holds `C`,
after a successful run `.gitignore.bak` holds `C` and the old backup is
overwritten: the resulting file system is the same whatever `B` was, and `B` is
stored afterwards only at `.gitignore.bak` when it equals `C`, at `.gitignore`
when it equals the generated text, or at another path that held it before.
After a second successful run `.gitignore.bak` holds the first run's generated
text, which is not `C` unless `C` was that text already. -/
theorem backup_keeps_latest_only (L : String → String) (walk walk' : List WalkEntry)
    (fs : FS) (B C : String) (hB : fs ".gitignore.bak" = some B)
    (hC : fs ".gitignore" = some C) :
    (main L walk none none fs).fs ".gitignore.bak" = some C ∧
    (∀ fs' : FS, (∀ p, p ≠ ".gitignore.bak" → fs' p = fs p) →
      ∀ p, (main L walk none none fs').fs p = (main L walk none none fs).fs p) ∧
    (∀ p, (main L walk none none fs).fs p = some B →
      (p = ".gitignore.bak" ∧ B = C) ∨
      (p = ".gitignore" ∧ B = generateGitignore (detectProjectTypes L walk)) ∨
      (p ≠ ".gitignore" ∧ p ≠ ".gitignore.bak" ∧ fs p = some B)) ∧
    (main L walk' none none (main L walk none none fs).fs).fs ".gitignore.bak" =
      some (generateGitignore (detectProjectTypes L walk)) ∧
    (main L walk' none none (main L walk none none fs).fs).fs ".gitignore" =
      some (generateGitignore (detectProjectTypes L walk')) ∧
    (C ≠ generateGitignore (detectProjectTypes L walk) →
      (main L walk' none none (main L walk none none fs).fs).fs ".gitignore.bak" ≠
        some C) := by
  have _hB := hB
  have hrun := main_of_renamed L walk none fs C hC
  have h1 : (main L walk none none fs).fs ".gitignore" =
      some (generateGitignore (detectProjectTypes L walk)) := by
    rw [hrun]; simp
  have hrun' := main_of_renamed L walk' none (main L walk none none fs).fs _ h1
  have hbak : (main L walk' none none (main L walk none none fs).fs).fs ".gitignore.bak" =
      some (generateGitignore (detectProjectTypes L walk)) := by
    rw [hrun']; simp
  refine ⟨by rw [hrun]; simp, ?_, ?_, hbak, by rw [hrun']; simp, ?_⟩
  · intro fs' hfs' p
    have hC' : fs' ".gitignore" = some C := by rw [hfs' _ (by decide), hC]
    rw [hrun, main_of_renamed L walk none fs' C hC']
    by_cases hp1 : p = ".gitignore"
    · simp [hp1]
    · by_cases hp2 : p = ".gitignore.bak"
      · simp [hp2]
      · simp [hp1, hp2, hfs' p hp2]
  · intro p hp
    rw [hrun] at hp
    by_cases hp1 : p = ".gitignore"
    · subst hp1
      simp at hp
      exact Or.inr (Or.inl ⟨rfl, hp.symm⟩)
    · by_cases hp2 : p = ".gitignore.bak"
      · subst hp2
        simp at hp
        exact Or.inl ⟨rfl, hp.symm⟩
      · simp [hp1, hp2] at hp
        exact Or.inr (Or.inr ⟨hp1, hp2, hp⟩)
  · intro hne hEq
    rw [hbak] at hEq
    exact hne (Option.some.inj hEq).symm

theorem backup_keeps_latest_only_witness :
    (main asciiToLower [WalkEntry.mk "." false] none none
        (fun p => if p = ".gitignore" then some "NEW"
          else if p = ".gitignore.bak" then some "OLD" else none)).fs ".gitignore.bak" =
      some "NEW" :=
  (backup_keeps_latest_only asciiToLower [WalkEntry.mk "." false] [WalkEntry.mk "." false]
    (fun p => if p = ".gitignore" then some "NEW"
      else if p = ".gitignore.bak" then some "OLD" else none) "OLD" "NEW"
    (by decide) (by decide)).1

end Gitignorer
